import Mathlib

/-!
Verification of the movie-review record store.

The development shallowly embeds the Rust sources (`src/state.rs`,
`src/instruction.rs`, `src/error.rs`, `src/processor.rs`) into Lean:

* machine bytes are `Fin 256`; Rust `String`s are their UTF-8 byte lists;
* 32-byte account identities (`Pubkey`) are natural numbers, rendered as
  32 little-endian base-256 digits where raw bytes are required;
* the Borsh codec is embedded byte-for-byte (4-byte little-endian length
  prefixes for strings, fixed-width integers, one byte per bool);
* the processor entry points become explicit state-passing functions over
  a buffer map plus a log of the external calls they issue;
* the host's cryptographic program-derived-address search is replaced by
  a deterministic injective-by-construction hash, and the other host
  services (rent, associated-token addresses, the token program identity)
  by deterministic stand-ins, since only their determinism is relied upon.
-/

namespace MovieReview

/-- A machine byte. -/
abbrev Byte := Fin 256

/-- A byte buffer, as stored in an account or carried as instruction data. -/
abbrev Bytes := List Byte

/-- Truncate a natural number into a byte. -/
def byte (n : Nat) : Byte := ⟨n % 256, by omega⟩

/-- Little-endian base-256 digits of `n`, exactly `k` bytes wide. -/
def toLE : Nat → Nat → Bytes
  | 0, _ => []
  | k + 1, n => byte n :: toLE k (n / 256)

/-- The value of a little-endian byte list. -/
def leVal : Bytes → Nat
  | [] => 0
  | b :: bs => b.val + 256 * leVal bs

theorem toLE_length (k n : Nat) : (toLE k n).length = k := by
  induction k generalizing n with
  | zero => rfl
  | succ k ih => simp [toLE, ih]

theorem leVal_lt (bs : Bytes) : leVal bs < 256 ^ bs.length := by
  induction bs with
  | nil => simp [leVal]
  | cons b bs ih =>
    have hb := b.isLt
    simp only [leVal, List.length_cons, pow_succ]
    omega

theorem leVal_toLE (k n : Nat) : leVal (toLE k n) = n % 256 ^ k := by
  induction k generalizing n with
  | zero => simp [toLE, leVal, Nat.mod_one]
  | succ k ih =>
    show (byte n).val + 256 * leVal (toLE k (n / 256)) = n % 256 ^ (k + 1)
    rw [ih, pow_succ', Nat.mod_mul]
    rfl

theorem toLE_leVal (bs : Bytes) : toLE bs.length (leVal bs) = bs := by
  induction bs with
  | nil => rfl
  | cons b bs ih =>
    have hb := b.isLt
    have h1 : (b.val + 256 * leVal bs) % 256 = b.val := by omega
    have h2 : (b.val + 256 * leVal bs) / 256 = leVal bs := by omega
    show byte (b.val + 256 * leVal bs) :: toLE bs.length ((b.val + 256 * leVal bs) / 256)
        = b :: bs
    rw [h2, ih]
    exact congrArg (· :: bs) (Fin.ext h1)

/-- Round trip for values that fit in `k` bytes. -/
theorem leVal_toLE_of_lt {k n : Nat} (h : n < 256 ^ k) : leVal (toLE k n) = n := by
  rw [leVal_toLE, Nat.mod_eq_of_lt h]

/-- Big-endian rendering of a 64-bit counter (`u64::to_be_bytes`). -/
def toBE8 (n : Nat) : Bytes := (toLE 8 n).reverse

/-! ### Borsh readers

Each reader consumes a typed value from the front of a buffer and returns
it with the remaining bytes, or `none` when the buffer is too short or the
bytes are not a valid encoding (`bool` bytes other than 0/1). These embed
the `BorshDeserialize` derivations used by `state.rs` and `instruction.rs`.
-/

/-- Read exactly `k` raw bytes. -/
def readN (k : Nat) (b : Bytes) : Option (Bytes × Bytes) :=
  if k ≤ b.length then some (b.take k, b.drop k) else none

/-- Read a little-endian `u32`. -/
def readU32 (b : Bytes) : Option (Nat × Bytes) :=
  (readN 4 b).map (fun p => (leVal p.1, p.2))

/-- Read a little-endian `u64`. -/
def readU64 (b : Bytes) : Option (Nat × Bytes) :=
  (readN 8 b).map (fun p => (leVal p.1, p.2))

/-- Read a `u8`. -/
def readU8 (b : Bytes) : Option (Nat × Bytes) :=
  match b with
  | [] => none
  | x :: r => some (x.val, r)

/-- Read a Borsh `bool`: one byte that must be 0 or 1. -/
def readBool (b : Bytes) : Option (Bool × Bytes) :=
  match b with
  | [] => none
  | x :: r => if x.val = 0 then some (false, r)
              else if x.val = 1 then some (true, r) else none

/-- Read a 32-byte `Pubkey`, interpreted as its little-endian value. -/
def readPubkey (b : Bytes) : Option (Nat × Bytes) :=
  (readN 32 b).map (fun p => (leVal p.1, p.2))

/-- Read a Borsh string: 4-byte little-endian length, then that many bytes. -/
def readString (b : Bytes) : Option (Bytes × Bytes) :=
  match readU32 b with
  | none => none
  | some (n, r) => readN n r

/-! ### Borsh writers -/

/-- Encode a little-endian `u32`. -/
def u32le (n : Nat) : Bytes := toLE 4 n

/-- Encode a little-endian `u64`. -/
def u64le (n : Nat) : Bytes := toLE 8 n

/-- Encode a `Pubkey` as its 32 raw bytes. -/
def pk32 (n : Nat) : Bytes := toLE 32 n

/-- Encode a Borsh `bool`. -/
def boolByte (b : Bool) : Byte := if b then byte 1 else byte 0

/-- Encode a Borsh string: 4-byte little-endian length prefix, then bytes. -/
def borshStr (s : Bytes) : Bytes := u32le s.length ++ s

/-! ### Reader/writer laws -/

theorem readN_append (v r : Bytes) : readN v.length (v ++ r) = some (v, r) := by
  simp [readN, List.take_left, List.drop_left]

theorem readN_exact {k : Nat} (v r : Bytes) (h : v.length = k) :
    readN k (v ++ r) = some (v, r) := by
  subst h; exact readN_append v r

theorem readN_eq_some {k : Nat} {b v r : Bytes} (h : readN k b = some (v, r)) :
    b = v ++ r ∧ v.length = k := by
  simp only [readN] at h
  split at h
  · next hk =>
    have h' := Option.some.inj h
    have hv : b.take k = v := congrArg Prod.fst h'
    have hr : b.drop k = r := congrArg Prod.snd h'
    refine ⟨by rw [← hv, ← hr, List.take_append_drop], ?_⟩
    rw [← hv]; exact List.length_take_of_le hk
  · exact absurd h (by simp)

theorem readU32_append (n : Nat) (r : Bytes) (h : n < 256 ^ 4) :
    readU32 (u32le n ++ r) = some (n, r) := by
  simp only [readU32, u32le]
  rw [readN_exact (toLE 4 n) r (toLE_length 4 n)]
  simp [leVal_toLE_of_lt h]

theorem readU64_append (n : Nat) (r : Bytes) (h : n < 256 ^ 8) :
    readU64 (u64le n ++ r) = some (n, r) := by
  simp only [readU64, u64le]
  rw [readN_exact (toLE 8 n) r (toLE_length 8 n)]
  simp [leVal_toLE_of_lt h]

theorem readPubkey_append (n : Nat) (r : Bytes) (h : n < 256 ^ 32) :
    readPubkey (pk32 n ++ r) = some (n, r) := by
  simp only [readPubkey, pk32]
  rw [readN_exact (toLE 32 n) r (toLE_length 32 n)]
  simp [leVal_toLE_of_lt h]

theorem readBool_append (b : Bool) (r : Bytes) :
    readBool (boolByte b :: r) = some (b, r) := by
  cases b <;> simp [readBool, boolByte, byte]

theorem readU8_append (n : Nat) (r : Bytes) (h : n < 256) :
    readU8 (byte n :: r) = some (n, r) := by
  simp [readU8, byte, Nat.mod_eq_of_lt h]

theorem readString_append (s r : Bytes) (h : s.length < 256 ^ 4) :
    readString (borshStr s ++ r) = some (s, r) := by
  simp only [readString, borshStr, List.append_assoc]
  rw [readU32_append s.length (s ++ r) h]
  exact readN_append s r

/-! ### Canonical-shape inversions

A successful read pins down the consumed bytes exactly: the buffer is the
canonical encoding of the value followed by the remainder. -/

theorem readU32_eq_some {b : Bytes} {n : Nat} {r : Bytes}
    (h : readU32 b = some (n, r)) : b = u32le n ++ r ∧ n < 256 ^ 4 := by
  simp only [readU32] at h
  cases h4 : readN 4 b with
  | none => rw [h4] at h; exact absurd h (by simp)
  | some p =>
    rw [h4] at h
    obtain ⟨pv, pr⟩ := p
    have h' := Option.some.inj h
    have hn : leVal pv = n := congrArg Prod.fst h'
    have hr : pr = r := congrArg Prod.snd h'
    obtain ⟨hb, hl⟩ := readN_eq_some h4
    have hlt : n < 256 ^ 4 := by rw [← hn, ← hl]; exact leVal_lt pv
    refine ⟨?_, hlt⟩
    have : u32le n = pv := by
      rw [u32le, ← hn, ← hl, toLE_leVal]
    rw [this, hb, hr]

theorem readU64_eq_some {b : Bytes} {n : Nat} {r : Bytes}
    (h : readU64 b = some (n, r)) : b = u64le n ++ r ∧ n < 256 ^ 8 := by
  simp only [readU64] at h
  cases h8 : readN 8 b with
  | none => rw [h8] at h; exact absurd h (by simp)
  | some p =>
    rw [h8] at h
    obtain ⟨pv, pr⟩ := p
    have h' := Option.some.inj h
    have hn : leVal pv = n := congrArg Prod.fst h'
    have hr : pr = r := congrArg Prod.snd h'
    obtain ⟨hb, hl⟩ := readN_eq_some h8
    have hlt : n < 256 ^ 8 := by rw [← hn, ← hl]; exact leVal_lt pv
    refine ⟨?_, hlt⟩
    have : u64le n = pv := by
      rw [u64le, ← hn, ← hl, toLE_leVal]
    rw [this, hb, hr]

theorem readPubkey_eq_some {b : Bytes} {n : Nat} {r : Bytes}
    (h : readPubkey b = some (n, r)) : b = pk32 n ++ r ∧ n < 256 ^ 32 := by
  simp only [readPubkey] at h
  cases h32 : readN 32 b with
  | none => rw [h32] at h; exact absurd h (by simp)
  | some p =>
    rw [h32] at h
    obtain ⟨pv, pr⟩ := p
    have h' := Option.some.inj h
    have hn : leVal pv = n := congrArg Prod.fst h'
    have hr : pr = r := congrArg Prod.snd h'
    obtain ⟨hb, hl⟩ := readN_eq_some h32
    have hlt : n < 256 ^ 32 := by rw [← hn, ← hl]; exact leVal_lt pv
    refine ⟨?_, hlt⟩
    have : pk32 n = pv := by
      rw [pk32, ← hn, ← hl, toLE_leVal]
    rw [this, hb, hr]

theorem readString_eq_some {b s r : Bytes} (h : readString b = some (s, r)) :
    b = borshStr s ++ r ∧ s.length < 256 ^ 4 := by
  simp only [readString] at h
  cases hu : readU32 b with
  | none => rw [hu] at h; exact absurd h (by simp)
  | some p =>
    rw [hu] at h
    obtain ⟨n, r1⟩ := p
    obtain ⟨hb, hn⟩ := readU32_eq_some hu
    obtain ⟨hr1, hs⟩ := readN_eq_some h
    subst hs
    exact ⟨by rw [hb, hr1, borshStr, List.append_assoc], hn⟩

theorem readBool_eq_some {b : Bytes} {v : Bool} {r : Bytes}
    (h : readBool b = some (v, r)) : b = boolByte v :: r := by
  match b with
  | [] => exact absurd h (by simp [readBool])
  | x :: rest =>
    simp only [readBool] at h
    by_cases h0 : x.val = 0
    · simp only [h0, if_pos rfl] at h
      have h' := Option.some.inj h
      have hv : false = v := congrArg Prod.fst h'
      have hr : rest = r := congrArg Prod.snd h'
      rw [← hv, ← hr, boolByte]
      simp [byte, Fin.ext_iff, h0]
    · by_cases h1 : x.val = 1
      · simp only [if_neg h0, h1, if_pos rfl] at h
        have h' := Option.some.inj h
        have hv : true = v := congrArg Prod.fst h'
        have hr : rest = r := congrArg Prod.snd h'
        rw [← hv, ← hr, boolByte]
        simp [byte, Fin.ext_iff, h1]
      · simp [if_neg h0, if_neg h1] at h

theorem readU8_eq_some {b : Bytes} {n : Nat} {r : Bytes}
    (h : readU8 b = some (n, r)) : b = byte n :: r ∧ n < 256 := by
  match b with
  | [] => exact absurd h (by simp [readU8])
  | x :: rest =>
    simp only [readU8] at h
    have h' := Option.some.inj h
    have hv : x.val = n := congrArg Prod.fst h'
    have hr : rest = r := congrArg Prod.snd h'
    have hlt : n < 256 := hv ▸ x.isLt
    refine ⟨?_, hlt⟩
    rw [← hr]
    exact congrArg (· :: rest)
      (Fin.ext (by simp [byte, ← hv, Nat.mod_eq_of_lt x.isLt]))

/-! ### Record kinds (`src/state.rs`)

Field names, order and discriminator strings follow `state.rs` exactly.
Strings are UTF-8 byte lists; `Pubkey`s are naturals. -/

/-- Bytes of an ASCII string, given by code points. -/
def ascii (l : List Nat) : Bytes := l.map byte

/-- The bytes of `"review"`. -/
def reviewDisc : Bytes := ascii [114, 101, 118, 105, 101, 119]

/-- The bytes of `"counter"`. -/
def counterDisc : Bytes := ascii [99, 111, 117, 110, 116, 101, 114]

/-- The bytes of `"comment"`. -/
def commentDisc : Bytes := ascii [99, 111, 109, 109, 101, 110, 116]

/-- The bytes of `"comment"` used as a seed (`b"comment"` in `processor.rs`). -/
def seedComment : Bytes := commentDisc

/-- The bytes of `b"token_mint"`. -/
def seedTokenMint : Bytes := ascii [116, 111, 107, 101, 110, 95, 109, 105, 110, 116]

/-- The bytes of `b"token_auth"`. -/
def seedTokenAuth : Bytes := ascii [116, 111, 107, 101, 110, 95, 97, 117, 116, 104]

/-- `MovieAccountState` from `state.rs`. -/
structure MovieAccountState where
  discriminator : Bytes
  is_initialized : Bool
  reviewer : Nat
  rating : Nat
  title : Bytes
  description : Bytes
deriving DecidableEq

/-- `MovieCommentCounter` from `state.rs`. -/
structure MovieCommentCounter where
  discriminator : Bytes
  is_initialized : Bool
  counter : Nat
deriving DecidableEq

/-- `MovieComment` from `state.rs`. -/
structure MovieComment where
  discriminator : Bytes
  is_initialized : Bool
  review : Nat
  commenter : Nat
  comment : Bytes
  count : Nat
deriving DecidableEq

/-- `MovieAccountState::get_account_size` from `state.rs`. -/
def MovieAccountState.get_account_size (title description : Bytes) : Nat :=
  (4 + reviewDisc.length) + 1 + 32 + 1 + (4 + title.length) + (4 + description.length)

/-- Modelled from the spec: `MovieAccountState::LEN` is referenced throughout
`processor.rs` but is not defined in `src/src/state.rs`; the spec fixes the
review record's capacity at 1000 bytes. -/
def MovieAccountState.LEN : Nat := 1000

/-- `MovieCommentCounter::SIZE` from `state.rs`. -/
def MovieCommentCounter.SIZE : Nat := (4 + counterDisc.length) + 1 + 8

/-- Modelled from the spec: `MovieCommentCounter::LEN` is referenced by
`processor.rs` but `src/src/state.rs` only defines the identical constant
`SIZE`; the counter record's capacity is its exact encoded size. -/
def MovieCommentCounter.LEN : Nat := MovieCommentCounter.SIZE

/-- `MovieComment::get_account_size` from `state.rs`. -/
def MovieComment.get_account_size (comment : Bytes) : Nat :=
  (4 + commentDisc.length) + 1 + 32 + 32 + (4 + comment.length) + 8

/-- `BorshSerialize` for `MovieAccountState`: fields in declaration order. -/
def encodeReview (r : MovieAccountState) : Bytes :=
  borshStr r.discriminator ++ [boolByte r.is_initialized] ++ pk32 r.reviewer
    ++ [byte r.rating] ++ borshStr r.title ++ borshStr r.description

/-- `BorshSerialize` for `MovieCommentCounter`. -/
def encodeCounter (c : MovieCommentCounter) : Bytes :=
  borshStr c.discriminator ++ [boolByte c.is_initialized] ++ u64le c.counter

/-- `BorshSerialize` for `MovieComment`. -/
def encodeComment (c : MovieComment) : Bytes :=
  borshStr c.discriminator ++ [boolByte c.is_initialized] ++ pk32 c.review
    ++ pk32 c.commenter ++ borshStr c.comment ++ u64le c.count

/-- `try_from_slice_unchecked::<MovieAccountState>`: a Borsh parse of the
front of the buffer, with trailing bytes ignored. -/
def decodeReview (b : Bytes) : Option MovieAccountState :=
  match readString b with
  | none => none
  | some (d, b) =>
  match readBool b with
  | none => none
  | some (i, b) =>
  match readPubkey b with
  | none => none
  | some (rv, b) =>
  match readU8 b with
  | none => none
  | some (rt, b) =>
  match readString b with
  | none => none
  | some (t, b) =>
  match readString b with
  | none => none
  | some (ds, _) => some ⟨d, i, rv, rt, t, ds⟩

/-- `try_from_slice_unchecked::<MovieCommentCounter>`. -/
def decodeCounter (b : Bytes) : Option MovieCommentCounter :=
  match readString b with
  | none => none
  | some (d, b) =>
  match readBool b with
  | none => none
  | some (i, b) =>
  match readU64 b with
  | none => none
  | some (c, _) => some ⟨d, i, c⟩

/-- `try_from_slice_unchecked::<MovieComment>`. -/
def decodeComment (b : Bytes) : Option MovieComment :=
  match readString b with
  | none => none
  | some (d, b) =>
  match readBool b with
  | none => none
  | some (i, b) =>
  match readPubkey b with
  | none => none
  | some (rv, b) =>
  match readPubkey b with
  | none => none
  | some (cm, b) =>
  match readString b with
  | none => none
  | some (c, b) =>
  match readU64 b with
  | none => none
  | some (ct, _) => some ⟨d, i, rv, cm, c, ct⟩

/-! ### Round trips, with trailing bytes tolerated -/

theorem decodeReview_append (r : MovieAccountState) (rest : Bytes)
    (hd : r.discriminator.length < 256 ^ 4)
    (hrv : r.reviewer < 256 ^ 32) (hrt : r.rating < 256)
    (ht : r.title.length < 256 ^ 4) (hds : r.description.length < 256 ^ 4) :
    decodeReview (encodeReview r ++ rest) = some r := by
  simp only [decodeReview, encodeReview, List.append_assoc, List.singleton_append,
    List.cons_append, List.nil_append, readString_append _ _ hd, readBool_append,
    readPubkey_append _ _ hrv, readU8_append _ _ hrt, readString_append _ _ ht,
    readString_append _ _ hds]

theorem decodeCounter_append (c : MovieCommentCounter) (rest : Bytes)
    (hd : c.discriminator.length < 256 ^ 4) (hc : c.counter < 256 ^ 8) :
    decodeCounter (encodeCounter c ++ rest) = some c := by
  simp only [decodeCounter, encodeCounter, List.append_assoc, List.singleton_append,
    List.cons_append, List.nil_append, readString_append _ _ hd, readBool_append,
    readU64_append _ _ hc]

theorem decodeComment_append (c : MovieComment) (rest : Bytes)
    (hd : c.discriminator.length < 256 ^ 4)
    (hrv : c.review < 256 ^ 32) (hcm : c.commenter < 256 ^ 32)
    (hc : c.comment.length < 256 ^ 4) (hct : c.count < 256 ^ 8) :
    decodeComment (encodeComment c ++ rest) = some c := by
  simp only [decodeComment, encodeComment, List.append_assoc, List.singleton_append,
    List.cons_append, List.nil_append, readString_append _ _ hd, readBool_append,
    readPubkey_append _ _ hrv, readPubkey_append _ _ hcm, readString_append _ _ hc,
    readU64_append _ _ hct]

/-! ### Encoded sizes -/

theorem encodeReview_length (r : MovieAccountState) :
    (encodeReview r).length
      = (4 + r.discriminator.length) + 1 + 32 + 1
        + (4 + r.title.length) + (4 + r.description.length) := by
  simp [encodeReview, borshStr, u32le, pk32, toLE_length]
  ring

theorem encodeCounter_length (c : MovieCommentCounter) :
    (encodeCounter c).length = (4 + c.discriminator.length) + 1 + 8 := by
  simp [encodeCounter, borshStr, u32le, u64le, toLE_length]
  ring

theorem encodeComment_length (c : MovieComment) :
    (encodeComment c).length
      = (4 + c.discriminator.length) + 1 + 32 + 32 + (4 + c.comment.length) + 8 := by
  simp [encodeComment, borshStr, u32le, u64le, pk32, toLE_length]
  ring

/-! ### Zero-filled buffers decode as uninitialized records -/

theorem leVal_replicate_zero (k : Nat) : leVal (List.replicate k (byte 0)) = 0 := by
  induction k with
  | zero => rfl
  | succ k ih =>
    rw [List.replicate_succ]
    show (byte 0).val + 256 * leVal (List.replicate k (byte 0)) = 0
    rw [ih]
    decide

theorem readN_replicate {k n : Nat} (h : k ≤ n) :
    readN k (List.replicate n (byte 0))
      = some (List.replicate k (byte 0), List.replicate (n - k) (byte 0)) := by
  simp only [readN, List.length_replicate, if_pos h, List.take_replicate,
    List.drop_replicate, Nat.min_eq_left h]

theorem readU32_replicate {n : Nat} (h : 4 ≤ n) :
    readU32 (List.replicate n (byte 0)) = some (0, List.replicate (n - 4) (byte 0)) := by
  simp only [readU32, readN_replicate h, Option.map_some', leVal_replicate_zero]

theorem readU64_replicate {n : Nat} (h : 8 ≤ n) :
    readU64 (List.replicate n (byte 0)) = some (0, List.replicate (n - 8) (byte 0)) := by
  simp only [readU64, readN_replicate h, Option.map_some', leVal_replicate_zero]

theorem readPubkey_replicate {n : Nat} (h : 32 ≤ n) :
    readPubkey (List.replicate n (byte 0)) = some (0, List.replicate (n - 32) (byte 0)) := by
  simp only [readPubkey, readN_replicate h, Option.map_some', leVal_replicate_zero]

theorem readString_replicate {n : Nat} (h : 4 ≤ n) :
    readString (List.replicate n (byte 0)) = some ([], List.replicate (n - 4) (byte 0)) := by
  simp only [readString, readU32_replicate h, readN, Nat.zero_le, if_pos,
    List.take_zero, List.drop_zero]

theorem readBool_replicate {n : Nat} (h : 1 ≤ n) :
    readBool (List.replicate n (byte 0)) = some (false, List.replicate (n - 1) (byte 0)) := by
  match n, h with
  | n + 1, _ =>
    rw [List.replicate_succ]
    simp [readBool, byte]

theorem readU8_replicate {n : Nat} (h : 1 ≤ n) :
    readU8 (List.replicate n (byte 0)) = some (0, List.replicate (n - 1) (byte 0)) := by
  match n, h with
  | n + 1, _ =>
    rw [List.replicate_succ]
    rfl

theorem decodeReview_replicate {n : Nat} (h : 46 ≤ n) :
    decodeReview (List.replicate n (byte 0)) = some ⟨[], false, 0, 0, [], []⟩ := by
  simp only [decodeReview, readString_replicate (show 4 ≤ n by omega),
    readBool_replicate (show 1 ≤ n - 4 by omega),
    readPubkey_replicate (show 32 ≤ n - 4 - 1 by omega),
    readU8_replicate (show 1 ≤ n - 4 - 1 - 32 by omega),
    readString_replicate (show 4 ≤ n - 4 - 1 - 32 - 1 by omega),
    readString_replicate (show 4 ≤ n - 4 - 1 - 32 - 1 - 4 by omega)]

theorem decodeCounter_replicate {n : Nat} (h : 13 ≤ n) :
    decodeCounter (List.replicate n (byte 0)) = some ⟨[], false, 0⟩ := by
  simp only [decodeCounter, readString_replicate (show 4 ≤ n by omega),
    readBool_replicate (show 1 ≤ n - 4 by omega),
    readU64_replicate (show 8 ≤ n - 4 - 1 by omega)]

theorem decodeComment_replicate {n : Nat} (h : 81 ≤ n) :
    decodeComment (List.replicate n (byte 0)) = some ⟨[], false, 0, 0, [], 0⟩ := by
  simp only [decodeComment, readString_replicate (show 4 ≤ n by omega),
    readBool_replicate (show 1 ≤ n - 4 by omega),
    readPubkey_replicate (show 32 ≤ n - 4 - 1 by omega),
    readPubkey_replicate (show 32 ≤ n - 4 - 1 - 32 by omega),
    readString_replicate (show 4 ≤ n - 4 - 1 - 32 - 32 by omega),
    readU64_replicate (show 8 ≤ n - 4 - 1 - 32 - 32 - 4 by omega)]

/-- The empty buffer (an absent account) decodes as no counter record. -/
theorem decodeCounter_nil : decodeCounter ([] : Bytes) = none := by
  simp [decodeCounter, readString, readU32, readN]

/-! ### Instruction decoding (`src/instruction.rs`) -/

/-- The commands of `MovieInstruction`. The `InitializeMint` variant is
modelled from the spec: `process_instruction` in `processor.rs` dispatches
on it and the tests drive it with discriminator 3, but the enum in
`src/src/instruction.rs` does not carry it. -/
inductive MovieInstruction where
  | AddMovieReview (title : Bytes) (rating : Nat) (description : Bytes)
  | UpdateMovieReview (title : Bytes) (rating : Nat) (description : Bytes)
  | AddComment (comment : Bytes)
  | InitializeMint
deriving DecidableEq

/-- `MovieReviewPayload::try_from_slice`: title, rating, description, with
every input byte consumed. -/
def decodeMovieReviewPayload (b : Bytes) : Option (Bytes × Nat × Bytes) :=
  match readString b with
  | none => none
  | some (t, b) =>
  match readU8 b with
  | none => none
  | some (r, b) =>
  match readString b with
  | none => none
  | some (d, b) => if b = [] then some (t, r, d) else none

/-- `CommentPayload::try_from_slice`: a single string, all bytes consumed. -/
def decodeCommentPayload (b : Bytes) : Option Bytes :=
  match readString b with
  | none => none
  | some (c, b) => if b = [] then some c else none

/-! ### Errors

`ReviewError` variants from `error.rs` surface as `ProgramError::Custom`
with the variant's index; the remaining constructors stand for the
`ProgramError` values the processor can produce. -/

inductive PErr where
  | InvalidInstructionData
  | NotEnoughAccountKeys
  | MissingRequiredSignature
  | InvalidAccountOwner
  | AccountAlreadyInitialized
  | AccountAlreadyInUse
  | BorshIoError
  | Custom (code : Nat)
deriving DecidableEq

/-- `ReviewError::UninitializedAccount` (error 0). -/
def ReviewError.UninitializedAccount : PErr := .Custom 0

/-- `ReviewError::InvalidPDA` (error 1). -/
def ReviewError.InvalidPDA : PErr := .Custom 1

/-- `ReviewError::InvalidDataLength` (error 2). -/
def ReviewError.InvalidDataLength : PErr := .Custom 2

/-- `ReviewError::InvalidRating` (error 3). -/
def ReviewError.InvalidRating : PErr := .Custom 3

/-- `ReviewError::IncorrectAccount` (error 4). -/
def ReviewError.IncorrectAccount : PErr := .Custom 4

/-- `MovieInstruction::unpack`: first byte selects the command, the rest is
its Borsh payload. The discriminator-3 arm is modelled from the spec (see
`MovieInstruction`); it carries no payload. -/
def MovieInstruction.unpack (input : Bytes) : Except PErr MovieInstruction :=
  match input with
  | [] => .error .InvalidInstructionData
  | d :: rest =>
    if d.val = 0 then
      match decodeMovieReviewPayload rest with
      | some p => .ok (.AddMovieReview p.1 p.2.1 p.2.2)
      | none => .error .InvalidInstructionData
    else if d.val = 1 then
      match decodeMovieReviewPayload rest with
      | some p => .ok (.UpdateMovieReview p.1 p.2.1 p.2.2)
      | none => .error .InvalidInstructionData
    else if d.val = 2 then
      match decodeCommentPayload rest with
      | some c => .ok (.AddComment c)
      | none => .error .InvalidInstructionData
    else if d.val = 3 then .ok .InitializeMint
    else .error .InvalidInstructionData

/-! ### Execution model

An invocation receives the program id, the ordered account metadata, and
instruction bytes. Buffer contents live in a keyed map threaded through
the run; the external calls the program issues (account creation through
the system program, token minting and mint initialization through the
token program) are appended to a log. On failure the host discards all
buffer changes of the invocation; the functions below nevertheless return
the state reached at the point of failure, so that the order of checks
and effects is itself observable. -/

/-- Per-account metadata, from `AccountInfo`. -/
structure AccountInfo where
  key : Nat
  is_signer : Bool
  owner : Nat
deriving DecidableEq

/-- An external call issued by the program. -/
inductive Effect where
  | createAccount (payer target lamports space owner : Nat)
  | mintTo (token_program mint dest authority amount : Nat)
  | initializeMint2 (token_program mint authority decimals : Nat)
deriving DecidableEq

/-- The buffer map: account key to data bytes. Missing keys are absent
accounts, i.e. empty buffers. -/
abbrev Bufs := List (Nat × Bytes)

/-- Data held at `k`. -/
def getBuf (bufs : Bufs) (k : Nat) : Bytes := (bufs.lookup k).getD []

/-- Overwrite the data held at `k`. -/
def setBuf (bufs : Bufs) (k : Nat) (v : Bytes) : Bufs := (k, v) :: bufs

/-- The mutable state of an invocation. -/
structure St where
  bufs : Bufs
  log : List Effect
deriving DecidableEq

theorem getBuf_setBuf (bufs : Bufs) (k : Nat) (v : Bytes) (a : Nat) :
    getBuf (setBuf bufs k v) a = if a = k then v else getBuf bufs a := by
  by_cases h : a = k
  · simp [getBuf, setBuf, List.lookup, h]
  · have hb : (a == k) = false := beq_eq_false_iff_ne.mpr h
    simp [getBuf, setBuf, List.lookup, hb, h]

/-! ### External services, modelled deterministically -/

/-- Modelled: the value of a seed byte-string, an injective base-257 word.
Stands in for the seed bytes fed to the PDA hash. -/
def seedVal (s : Bytes) : Nat := s.foldl (fun a b => a * 257 + (b.val + 1)) 0

/-- Modelled: `Pubkey::find_program_address`. The SHA-256 off-curve search
is replaced by an injective-by-construction pairing of the seed values and
the program id, with the bump fixed at 255; all the program relies on is
that the map is a pure function of (seeds, program id). -/
def find_program_address (seeds : List Bytes) (program_id : Nat) : Nat × Nat :=
  ((seeds.foldl (fun a s => Nat.pair a (seedVal s)) 0).pair program_id + 1, 255)

/-- Modelled: `spl_associated_token_account::get_associated_token_address`,
a pure function of (owner, mint), kept injective via pairing. -/
def get_associated_token_address (owner mint : Nat) : Nat :=
  Nat.pair owner mint + 2

/-- Modelled: `spl_token::ID`, an opaque external program identity. -/
def TOKEN_PROGRAM_ID : Nat := 1000000007

/-- Modelled: `Rent::minimum_balance`, a deterministic host function whose
exact value the program never inspects. -/
def rentMinimumBalance (size : Nat) : Nat := (128 + size) * 6960

/-- `native_token::sol_to_lamports` at whole-SOL inputs. -/
def sol_to_lamports (sol : Nat) : Nat := sol * 1000000000

/-- `spl_token::state::Mint::LEN`. -/
def splMintLen : Nat := 82

/-- The system program's `create_account`, as invoked via `invoke_signed`:
fails when the target address already holds data, otherwise installs a
zero-filled buffer of the requested size and records the call. -/
def createAccount (st : St) (payer target lamports space owner : Nat) :
    Except PErr St :=
  if getBuf st.bufs target = [] then
    .ok ⟨setBuf st.bufs target (List.replicate space (byte 0)),
         st.log ++ [.createAccount payer target lamports space owner]⟩
  else .error .AccountAlreadyInUse

/-- `BorshSerialize::serialize(&mut &mut data[..])`: writes the encoding
over the front of the buffer; when the buffer is too short the fitting
byte prefix is written and the call errors. -/
def serializeInto (st : St) (k : Nat) (enc : Bytes) : Except PErr Unit × St :=
  let buf := getBuf st.bufs k
  if enc.length ≤ buf.length then
    (.ok (), ⟨setBuf st.bufs k (enc ++ buf.drop enc.length), st.log⟩)
  else
    (.error .BorshIoError, ⟨setBuf st.bufs k (enc.take buf.length), st.log⟩)

/-! ### The processor (`src/processor.rs`) -/

/-- The reward-minting block shared verbatim by `add_movie_review`
(lines 194-230, amount 10) and `add_comment` (lines 391-427, amount 5):
re-derives the mint and mint-authority addresses, matches them and the
associated token account and the token program against the supplied
accounts, then issues the `mint_to` call. -/
def mint_reward (program_id : Nat)
    (user token_mint mint_auth user_ata token_program : AccountInfo)
    (amount : Nat) (st : St) : Except PErr Unit × St :=
  let mint_pda := (find_program_address [seedTokenMint] program_id).1
  let mint_auth_pda := (find_program_address [seedTokenAuth] program_id).1
  if mint_pda ≠ token_mint.key then (.error ReviewError.IncorrectAccount, st) else
  if mint_auth_pda ≠ mint_auth.key then (.error ReviewError.InvalidPDA, st) else
  if get_associated_token_address user.key token_mint.key ≠ user_ata.key then
    (.error ReviewError.IncorrectAccount, st) else
  if TOKEN_PROGRAM_ID ≠ token_program.key then
    (.error ReviewError.IncorrectAccount, st) else
  (.ok (), ⟨st.bufs, st.log ++ [.mintTo token_program.key token_mint.key
      user_ata.key mint_auth.key (sol_to_lamports amount)]⟩)

/-- `add_movie_review` from `processor.rs`. -/
def add_movie_review (program_id : Nat) (accounts : List AccountInfo)
    (title : Bytes) (rating : Nat) (description : Bytes) (st : St) :
    Except PErr Unit × St :=
  match accounts with
  | initializer :: pda_account :: pda_counter :: token_mint :: mint_auth ::
      user_ata :: _system_program :: token_program :: _ =>
    if initializer.is_signer = false then (.error .MissingRequiredSignature, st) else
    let pda_bump := find_program_address [pk32 initializer.key, title] program_id
    if pda_bump.1 ≠ pda_account.key then (.error ReviewError.InvalidPDA, st) else
    if rating > 5 ∨ rating < 1 then (.error ReviewError.InvalidRating, st) else
    if MovieAccountState.get_account_size title description > MovieAccountState.LEN then
      (.error ReviewError.InvalidDataLength, st) else
    match createAccount st initializer.key pda_account.key
        (rentMinimumBalance MovieAccountState.LEN) MovieAccountState.LEN program_id with
    | .error e => (.error e, st)
    | .ok st1 =>
    match decodeReview (getBuf st1.bufs pda_account.key) with
    | none => (.error .BorshIoError, st1)
    | some account_data =>
    if account_data.is_initialized then (.error .AccountAlreadyInitialized, st1) else
    match serializeInto st1 pda_account.key (encodeReview
        { discriminator := reviewDisc, is_initialized := true,
          reviewer := initializer.key, rating := rating,
          title := title, description := description }) with
    | (.error e, st2) => (.error e, st2)
    | (.ok _, st2) =>
    let counter_bump := find_program_address [pk32 pda_bump.1, seedComment] program_id
    if counter_bump.1 ≠ pda_counter.key then (.error ReviewError.InvalidPDA, st2) else
    match createAccount st2 initializer.key pda_counter.key
        (rentMinimumBalance MovieCommentCounter.LEN) MovieCommentCounter.LEN program_id with
    | .error e => (.error e, st2)
    | .ok st3 =>
    match decodeCounter (getBuf st3.bufs pda_counter.key) with
    | none => (.error .BorshIoError, st3)
    | some counter_data =>
    if counter_data.is_initialized then (.error .AccountAlreadyInitialized, st3) else
    match serializeInto st3 pda_counter.key (encodeCounter
        { discriminator := counterDisc, is_initialized := true, counter := 0 }) with
    | (.error e, st4) => (.error e, st4)
    | (.ok _, st4) =>
    mint_reward program_id initializer token_mint mint_auth user_ata token_program 10 st4
  | _ => (.error .NotEnoughAccountKeys, st)

/-- `update_movie_review` from `processor.rs`. -/
def update_movie_review (program_id : Nat) (accounts : List AccountInfo)
    (title : Bytes) (rating : Nat) (description : Bytes) (st : St) :
    Except PErr Unit × St :=
  match accounts with
  | initializer :: pda_account :: _ =>
    if pda_account.owner ≠ program_id then (.error .InvalidAccountOwner, st) else
    if initializer.is_signer = false then (.error .MissingRequiredSignature, st) else
    match decodeReview (getBuf st.bufs pda_account.key) with
    | none => (.error .BorshIoError, st)
    | some account_data =>
    if (find_program_address [pk32 initializer.key, account_data.title] program_id).1
        ≠ pda_account.key then (.error ReviewError.InvalidPDA, st) else
    if account_data.is_initialized = false then
      (.error ReviewError.UninitializedAccount, st) else
    if rating > 5 ∨ rating < 1 then (.error ReviewError.InvalidRating, st) else
    if MovieAccountState.get_account_size title description > MovieAccountState.LEN then
      (.error ReviewError.InvalidDataLength, st) else
    match serializeInto st pda_account.key (encodeReview
        { account_data with rating := rating, description := description }) with
    | (.error e, st1) => (.error e, st1)
    | (.ok _, st1) => (.ok (), st1)
  | _ => (.error .NotEnoughAccountKeys, st)

/-- `add_comment` from `processor.rs`. -/
def add_comment (program_id : Nat) (accounts : List AccountInfo)
    (comment : Bytes) (st : St) : Except PErr Unit × St :=
  match accounts with
  | commenter :: pda_review :: pda_counter :: pda_comment :: token_mint ::
      mint_auth :: user_ata :: _system_program :: token_program :: _ =>
    match decodeCounter (getBuf st.bufs pda_counter.key) with
    | none => (.error .BorshIoError, st)
    | some counter_data =>
    let account_len := MovieComment.get_account_size comment
    let pda_bump := find_program_address
      [pk32 pda_review.key, toBE8 counter_data.counter] program_id
    if pda_bump.1 ≠ pda_comment.key then (.error ReviewError.InvalidPDA, st) else
    match createAccount st commenter.key pda_comment.key
        (rentMinimumBalance account_len) account_len program_id with
    | .error e => (.error e, st)
    | .ok st1 =>
    match decodeComment (getBuf st1.bufs pda_comment.key) with
    | none => (.error .BorshIoError, st1)
    | some comment_data =>
    if comment_data.is_initialized then (.error .AccountAlreadyInitialized, st1) else
    match serializeInto st1 pda_comment.key (encodeComment
        { discriminator := commentDisc, is_initialized := true,
          review := pda_review.key, commenter := commenter.key,
          comment := comment, count := comment_data.count }) with
    | (.error e, st2) => (.error e, st2)
    | (.ok _, st2) =>
    match serializeInto st2 pda_counter.key (encodeCounter
        { counter_data with counter := counter_data.counter + 1 }) with
    | (.error e, st3) => (.error e, st3)
    | (.ok _, st3) =>
    mint_reward program_id commenter token_mint mint_auth user_ata token_program 5 st3
  | _ => (.error .NotEnoughAccountKeys, st)

/-- `initialize_token_mint` from `processor.rs`. -/
def initialize_token_mint (program_id : Nat) (accounts : List AccountInfo)
    (st : St) : Except PErr Unit × St :=
  match accounts with
  | initializer :: token_mint :: mint_auth :: _system_program :: token_program :: _ =>
    let mint_pda := (find_program_address [seedTokenMint] program_id).1
    let mint_auth_pda := (find_program_address [seedTokenAuth] program_id).1
    if mint_pda ≠ token_mint.key then (.error ReviewError.IncorrectAccount, st) else
    if TOKEN_PROGRAM_ID ≠ token_program.key then
      (.error ReviewError.IncorrectAccount, st) else
    if mint_auth_pda ≠ mint_auth.key then (.error ReviewError.IncorrectAccount, st) else
    match createAccount st initializer.key token_mint.key
        (rentMinimumBalance splMintLen) splMintLen token_program.key with
    | .error e => (.error e, st)
    | .ok st1 =>
    (.ok (), ⟨st1.bufs, st1.log ++ [.initializeMint2 token_program.key
        token_mint.key mint_auth.key 9]⟩)
  | _ => (.error .NotEnoughAccountKeys, st)

/-- `process_instruction`: decode, then dispatch. -/
def process_instruction (program_id : Nat) (accounts : List AccountInfo)
    (instruction_data : Bytes) (st : St) : Except PErr Unit × St :=
  match MovieInstruction.unpack instruction_data with
  | .error e => (.error e, st)
  | .ok (.AddMovieReview title rating description) =>
      add_movie_review program_id accounts title rating description st
  | .ok (.UpdateMovieReview title rating description) =>
      update_movie_review program_id accounts title rating description st
  | .ok (.AddComment comment) => add_comment program_id accounts comment st
  | .ok .InitializeMint => initialize_token_mint program_id accounts st

/-- The host applies an invocation transactionally: buffer changes survive
only when the invocation succeeds (spec section 5, all-or-nothing). -/
def hostApply (program_id : Nat) (accounts : List AccountInfo)
    (instruction_data : Bytes) (bufs : Bufs) : Bufs :=
  match process_instruction program_id accounts instruction_data ⟨bufs, []⟩ with
  | (.ok _, st) => st.bufs
  | (.error _, _) => bufs

/-- One queued invocation. -/
structure Inv where
  program_id : Nat
  accounts : List AccountInfo
  instruction_data : Bytes

/-- A sequence of invocations applied by the host in order. -/
def hostRun (l : List Inv) (bufs : Bufs) : Bufs :=
  l.foldl (fun b i => hostApply i.program_id i.accounts i.instruction_data b) bufs

/-- The count stored by the counter record decoded at `a`, if any. -/
def counterView (bufs : Bufs) (a : Nat) : Option Nat :=
  (decodeCounter (getBuf bufs a)).map MovieCommentCounter.counter

/-! ## Claims -/

/-- C9: for review and comment records carrying their kind's discriminator,
`get_account_size` equals the exact byte length of the record's encoding,
so the capacity pre-check accepts a record exactly when its encoded bytes
fit a buffer of the given capacity. -/
theorem claim_C9 :
    (∀ (r : MovieAccountState) (cap : Nat), r.discriminator = reviewDisc →
      (encodeReview r).length
          = MovieAccountState.get_account_size r.title r.description ∧
      (MovieAccountState.get_account_size r.title r.description ≤ cap ↔
        (encodeReview r).length ≤ cap))
  ∧ (∀ (c : MovieComment) (cap : Nat), c.discriminator = commentDisc →
      (encodeComment c).length = MovieComment.get_account_size c.comment ∧
      (MovieComment.get_account_size c.comment ≤ cap ↔
        (encodeComment c).length ≤ cap)) := by
  constructor
  · intro r cap hdisc
    have h : (encodeReview r).length
        = MovieAccountState.get_account_size r.title r.description := by
      rw [encodeReview_length, MovieAccountState.get_account_size, hdisc]
    exact ⟨h, by rw [h]⟩
  · intro c cap hdisc
    have h : (encodeComment c).length = MovieComment.get_account_size c.comment := by
      rw [encodeComment_length, MovieComment.get_account_size, hdisc]
    exact ⟨h, by rw [h]⟩

theorem claim_C9_witness :
    ((⟨reviewDisc, true, 5, 3, [byte 65], [byte 66, byte 67]⟩ :
        MovieAccountState).discriminator = reviewDisc) ∧
    (encodeReview ⟨reviewDisc, true, 5, 3, [byte 65], [byte 66, byte 67]⟩).length
      = MovieAccountState.get_account_size [byte 65] [byte 66, byte 67] :=
  ⟨rfl, (claim_C9.1 ⟨reviewDisc, true, 5, 3, [byte 65], [byte 66, byte 67]⟩
      MovieAccountState.LEN rfl).1⟩

/-- C8: encoding then decoding any record whose fields respect their Rust
types and whose encoded size is within its capacity returns the record
unchanged, field by field, for all three record kinds. -/
theorem claim_C8 :
    (∀ r : MovieAccountState, r.rating < 256 → r.reviewer < 256 ^ 32 →
      (encodeReview r).length ≤ MovieAccountState.LEN →
      decodeReview (encodeReview r) = some r)
  ∧ (∀ c : MovieCommentCounter, c.counter < 256 ^ 8 →
      (encodeCounter c).length ≤ MovieCommentCounter.LEN →
      decodeCounter (encodeCounter c) = some c)
  ∧ (∀ c : MovieComment, c.review < 256 ^ 32 → c.commenter < 256 ^ 32 →
      c.count < 256 ^ 8 → c.comment.length < 256 ^ 4 →
      (encodeComment c).length ≤ MovieComment.get_account_size c.comment →
      decodeComment (encodeComment c) = some c) := by
  have h4 : (256 : Nat) ^ 4 = 4294967296 := by norm_num
  refine ⟨?_, ?_, ?_⟩
  · intro r hrt hrv hcap
    rw [encodeReview_length] at hcap
    rw [MovieAccountState.LEN] at hcap
    have hd : r.discriminator.length < 256 ^ 4 := by omega
    have ht : r.title.length < 256 ^ 4 := by omega
    have hds : r.description.length < 256 ^ 4 := by omega
    have := decodeReview_append r [] hd hrv hrt ht hds
    rwa [List.append_nil] at this
  · intro c hc hcap
    rw [encodeCounter_length] at hcap
    rw [MovieCommentCounter.LEN, MovieCommentCounter.SIZE] at hcap
    have h7 : counterDisc.length = 7 := rfl
    rw [h7] at hcap
    have hd : c.discriminator.length < 256 ^ 4 := by omega
    have := decodeCounter_append c [] hd hc
    rwa [List.append_nil] at this
  · intro c hrv hcm hct hcml hcap
    rw [encodeComment_length] at hcap
    rw [MovieComment.get_account_size] at hcap
    have h7 : commentDisc.length = 7 := rfl
    rw [h7] at hcap
    have hd : c.discriminator.length < 256 ^ 4 := by omega
    have := decodeComment_append c [] hd hrv hcm hcml hct
    rwa [List.append_nil] at this

theorem claim_C8_witness :
    decodeReview (encodeReview ⟨reviewDisc, true, 5, 3, [byte 65], [byte 66]⟩)
      = some ⟨reviewDisc, true, 5, 3, [byte 65], [byte 66]⟩ :=
  claim_C8.1 ⟨reviewDisc, true, 5, 3, [byte 65], [byte 66]⟩
    (by norm_num) (by norm_num) (by decide)


/-- C3: `unpack` maps first byte 0/1/2/3 to AddReview/UpdateReview/
AddComment/InitializeMint with the rest decoded as that command's payload
(InitializeMint carries none), and fails -- always with
`InvalidInstructionData` -- exactly when the buffer is empty, the first
byte is unrecognized, or the payload fails to decode. -/
theorem claim_C3 :
    (MovieInstruction.unpack [] = .error .InvalidInstructionData)
  ∧ (∀ (d : Byte) (rest : Bytes),
      (d.val = 0 → ∀ p, decodeMovieReviewPayload rest = some p →
        MovieInstruction.unpack (d :: rest) = .ok (.AddMovieReview p.1 p.2.1 p.2.2))
    ∧ (d.val = 0 → decodeMovieReviewPayload rest = none →
        MovieInstruction.unpack (d :: rest) = .error .InvalidInstructionData)
    ∧ (d.val = 1 → ∀ p, decodeMovieReviewPayload rest = some p →
        MovieInstruction.unpack (d :: rest) = .ok (.UpdateMovieReview p.1 p.2.1 p.2.2))
    ∧ (d.val = 1 → decodeMovieReviewPayload rest = none →
        MovieInstruction.unpack (d :: rest) = .error .InvalidInstructionData)
    ∧ (d.val = 2 → ∀ c, decodeCommentPayload rest = some c →
        MovieInstruction.unpack (d :: rest) = .ok (.AddComment c))
    ∧ (d.val = 2 → decodeCommentPayload rest = none →
        MovieInstruction.unpack (d :: rest) = .error .InvalidInstructionData)
    ∧ (d.val = 3 → MovieInstruction.unpack (d :: rest) = .ok .InitializeMint)
    ∧ (d.val ≠ 0 → d.val ≠ 1 → d.val ≠ 2 → d.val ≠ 3 →
        MovieInstruction.unpack (d :: rest) = .error .InvalidInstructionData))
  ∧ (∀ input : Bytes, (∃ e, MovieInstruction.unpack input = .error e) ↔
      (input = [] ∨ ∃ d rest, input = d :: rest ∧
        (((d.val = 0 ∨ d.val = 1) ∧ decodeMovieReviewPayload rest = none) ∨
         (d.val = 2 ∧ decodeCommentPayload rest = none) ∨
         (d.val ≠ 0 ∧ d.val ≠ 1 ∧ d.val ≠ 2 ∧ d.val ≠ 3))))
  ∧ (∀ input e, MovieInstruction.unpack input = .error e →
      e = .InvalidInstructionData) := by
  have hmain : ∀ (d : Byte) (rest : Bytes),
      MovieInstruction.unpack (d :: rest)
        = if d.val = 0 then
            (match decodeMovieReviewPayload rest with
             | some p => .ok (.AddMovieReview p.1 p.2.1 p.2.2)
             | none => .error .InvalidInstructionData)
          else if d.val = 1 then
            (match decodeMovieReviewPayload rest with
             | some p => .ok (.UpdateMovieReview p.1 p.2.1 p.2.2)
             | none => .error .InvalidInstructionData)
          else if d.val = 2 then
            (match decodeCommentPayload rest with
             | some c => .ok (.AddComment c)
             | none => .error .InvalidInstructionData)
          else if d.val = 3 then .ok .InitializeMint
          else .error .InvalidInstructionData := by
    intro d rest
    rfl
  refine ⟨rfl, ?_, ?_, ?_⟩
  · intro d rest
    refine ⟨?_, ?_, ?_, ?_, ?_, ?_, ?_, ?_⟩
    · intro h0 p hp
      rw [hmain, if_pos h0, hp]
    · intro h0 hp
      rw [hmain, if_pos h0, hp]
    · intro h1 p hp
      have h0 : ¬ d.val = 0 := by omega
      rw [hmain, if_neg h0, if_pos h1, hp]
    · intro h1 hp
      have h0 : ¬ d.val = 0 := by omega
      rw [hmain, if_neg h0, if_pos h1, hp]
    · intro h2 c hc
      have h0 : ¬ d.val = 0 := by omega
      have h1 : ¬ d.val = 1 := by omega
      rw [hmain, if_neg h0, if_neg h1, if_pos h2, hc]
    · intro h2 hc
      have h0 : ¬ d.val = 0 := by omega
      have h1 : ¬ d.val = 1 := by omega
      rw [hmain, if_neg h0, if_neg h1, if_pos h2, hc]
    · intro h3
      have h0 : ¬ d.val = 0 := by omega
      have h1 : ¬ d.val = 1 := by omega
      have h2 : ¬ d.val = 2 := by omega
      rw [hmain, if_neg h0, if_neg h1, if_neg h2, if_pos h3]
    · intro h0 h1 h2 h3
      rw [hmain, if_neg h0, if_neg h1, if_neg h2, if_neg h3]
  · intro input
    match input with
    | [] =>
      simp [MovieInstruction.unpack]
    | d :: rest =>
      rw [hmain]
      constructor
      · rintro ⟨e, he⟩
        right
        refine ⟨d, rest, rfl, ?_⟩
        by_cases h0 : d.val = 0
        · rw [if_pos h0] at he
          cases hp : decodeMovieReviewPayload rest with
          | none => exact Or.inl ⟨Or.inl h0, rfl⟩
          | some p => rw [hp] at he; exact absurd he (by simp)
        · rw [if_neg h0] at he
          by_cases h1 : d.val = 1
          · rw [if_pos h1] at he
            cases hp : decodeMovieReviewPayload rest with
            | none => exact Or.inl ⟨Or.inr h1, rfl⟩
            | some p => rw [hp] at he; exact absurd he (by simp)
          · rw [if_neg h1] at he
            by_cases h2 : d.val = 2
            · rw [if_pos h2] at he
              cases hp : decodeCommentPayload rest with
              | none => exact Or.inr (Or.inl ⟨h2, rfl⟩)
              | some c => rw [hp] at he; exact absurd he (by simp)
            · rw [if_neg h2] at he
              by_cases h3 : d.val = 3
              · rw [if_pos h3] at he; exact absurd he (by simp)
              · exact Or.inr (Or.inr ⟨h0, h1, h2, h3⟩)
      · rintro (hnil | ⟨d', rest', heq, hcase⟩)
        · exact absurd hnil (by simp)
        · have hd : d' = d ∧ rest' = rest := by
            have h1 := List.head_eq_of_cons_eq heq.symm
            have h2 := List.tail_eq_of_cons_eq heq.symm
            exact ⟨h1, h2⟩
          obtain ⟨rfl, rfl⟩ := hd
          rcases hcase with ⟨h01, hp⟩ | ⟨h2, hp⟩ | ⟨h0, h1, h2, h3⟩
          · rcases h01 with h0 | h1
            · rw [if_pos h0, hp]; exact ⟨_, rfl⟩
            · have h0 : ¬ d'.val = 0 := by omega
              rw [if_neg h0, if_pos h1, hp]; exact ⟨_, rfl⟩
          · have h0 : ¬ d'.val = 0 := by omega
            have h1 : ¬ d'.val = 1 := by omega
            rw [if_neg h0, if_neg h1, if_pos h2, hp]; exact ⟨_, rfl⟩
          · rw [if_neg h0, if_neg h1, if_neg h2, if_neg h3]; exact ⟨_, rfl⟩
  · intro input e he
    match input with
    | [] =>
      simp [MovieInstruction.unpack] at he
      exact he.symm
    | d :: rest =>
      rw [hmain] at he
      by_cases h0 : d.val = 0
      · rw [if_pos h0] at he
        cases hp : decodeMovieReviewPayload rest with
        | none => rw [hp] at he; exact (Except.error.inj he).symm
        | some p => rw [hp] at he; exact absurd he (by simp)
      · rw [if_neg h0] at he
        by_cases h1 : d.val = 1
        · rw [if_pos h1] at he
          cases hp : decodeMovieReviewPayload rest with
          | none => rw [hp] at he; exact (Except.error.inj he).symm
          | some p => rw [hp] at he; exact absurd he (by simp)
        · rw [if_neg h1] at he
          by_cases h2 : d.val = 2
          · rw [if_pos h2] at he
            cases hp : decodeCommentPayload rest with
            | none => rw [hp] at he; exact (Except.error.inj he).symm
            | some c => rw [hp] at he; exact absurd he (by simp)
          · rw [if_neg h2] at he
            by_cases h3 : d.val = 3
            · rw [if_pos h3] at he; exact absurd he (by simp)
            · rw [if_neg h3] at he; exact (Except.error.inj he).symm

theorem claim_C3_witness :
    MovieInstruction.unpack
        (byte 0 :: (borshStr [byte 65] ++ [byte 4] ++ borshStr [byte 66]))
      = .ok (.AddMovieReview [byte 65] 4 [byte 66])
    ∧ MovieInstruction.unpack [byte 3, byte 9] = .ok .InitializeMint
    ∧ MovieInstruction.unpack [byte 7] = .error .InvalidInstructionData :=
  ⟨(claim_C3.2.1 (byte 0) _).1 (by decide) ([byte 65], 4, [byte 66]) (by decide),
   (claim_C3.2.1 (byte 3) [byte 9]).2.2.2.2.2.2.1 (by decide),
   (claim_C3.2.1 (byte 7) []).2.2.2.2.2.2.2 (by decide) (by decide) (by decide)
     (by decide)⟩


/-! ### A concrete scenario shared by several claims -/

/-- A sample program id. -/
def exPid : Nat := 7

/-- A sample signing author. -/
def exSigner : AccountInfo := ⟨3, true, 0⟩

/-- A sample title, `"A"`. -/
def exTitle : Bytes := [byte 65]

/-- A sample review body, `"B"`. -/
def exBody : Bytes := [byte 66]

/-- The derived review address for (author 3, title `"A"`). -/
def exReviewKey : Nat := (find_program_address [pk32 3, exTitle] exPid).1

/-- The review account at its derived address. -/
def exReviewAcct : AccountInfo := ⟨exReviewKey, false, 0⟩

/-- The derived counter address for the sample review. -/
def exCounterKey : Nat := (find_program_address [pk32 exReviewKey, seedComment] exPid).1

/-- The counter account at its derived address. -/
def exCounterAcct : AccountInfo := ⟨exCounterKey, false, 0⟩

/-- The derived token-mint address. -/
def exMintKey : Nat := (find_program_address [seedTokenMint] exPid).1

/-- The derived mint-authority address. -/
def exAuthKey : Nat := (find_program_address [seedTokenAuth] exPid).1

/-- The token-mint account at its derived address. -/
def exMintAcct : AccountInfo := ⟨exMintKey, false, 0⟩

/-- The mint-authority account at its derived address. -/
def exAuthAcct : AccountInfo := ⟨exAuthKey, false, 0⟩

/-- The author's associated token account. -/
def exAtaAcct : AccountInfo := ⟨get_associated_token_address 3 exMintKey, false, 0⟩

/-- The system-program account. -/
def exSystemAcct : AccountInfo := ⟨0, false, 0⟩

/-- The token-program account. -/
def exTokenAcct : AccountInfo := ⟨TOKEN_PROGRAM_ID, false, 0⟩

/-- A token-mint account at a wrong address. -/
def exBadMintAcct : AccountInfo := ⟨77, false, 0⟩

/-- A mint-authority account at a wrong address. -/
def exBadAuthAcct : AccountInfo := ⟨78, false, 0⟩

/-- C4: when AddReview's signer and derived-address checks pass, a rating
outside 1..=5 fails with `InvalidRating` and leaves the state untouched,
and an account size beyond the 1000-byte capacity fails with
`InvalidDataLength` before any buffer is created or mutated. -/
theorem claim_C4 :
    ∀ (program_id : Nat) (i pa pc tm ma ata sp tp : AccountInfo)
      (extra : List AccountInfo) (title : Bytes) (rating : Nat)
      (description : Bytes) (st : St),
      i.is_signer = true →
      (find_program_address [pk32 i.key, title] program_id).1 = pa.key →
      ((rating > 5 ∨ rating < 1) →
        add_movie_review program_id (i :: pa :: pc :: tm :: ma :: ata :: sp :: tp :: extra)
          title rating description st = (.error ReviewError.InvalidRating, st))
      ∧ (¬ (rating > 5 ∨ rating < 1) →
        MovieAccountState.get_account_size title description > MovieAccountState.LEN →
        add_movie_review program_id (i :: pa :: pc :: tm :: ma :: ata :: sp :: tp :: extra)
          title rating description st = (.error ReviewError.InvalidDataLength, st)) := by
  intro program_id i pa pc tm ma ata sp tp extra title rating description st hs hpda
  constructor
  · intro hr
    simp only [add_movie_review]
    rw [if_neg (by simp [hs])]
    rw [if_neg (fun h => h hpda)]
    rw [if_pos hr]
  · intro hr hsz
    simp only [add_movie_review]
    rw [if_neg (by simp [hs])]
    rw [if_neg (fun h => h hpda)]
    rw [if_neg hr]
    rw [if_pos hsz]

theorem claim_C4_witness :
    add_movie_review exPid
      [exSigner, exReviewAcct, exCounterAcct, exMintAcct, exAuthAcct,
       exAtaAcct, exSystemAcct, exTokenAcct] exTitle 9 exBody ⟨[], []⟩
      = (.error ReviewError.InvalidRating, ⟨[], []⟩) :=
  (claim_C4 exPid exSigner exReviewAcct exCounterAcct exMintAcct exAuthAcct
    exAtaAcct exSystemAcct exTokenAcct [] exTitle 9 exBody ⟨[], []⟩
    rfl rfl).1 (by omega)


/-! ### Validation ladders: failures that precede any side effect -/

theorem add_movie_review_early_checks
    (program_id : Nat) (i pa pc tm ma ata sp tp : AccountInfo)
    (extra : List AccountInfo) (title : Bytes) (rating : Nat)
    (description : Bytes) (st : St) :
    (i.is_signer = false →
      add_movie_review program_id (i :: pa :: pc :: tm :: ma :: ata :: sp :: tp :: extra)
        title rating description st = (.error .MissingRequiredSignature, st))
    ∧ (i.is_signer = true →
       (find_program_address [pk32 i.key, title] program_id).1 ≠ pa.key →
      add_movie_review program_id (i :: pa :: pc :: tm :: ma :: ata :: sp :: tp :: extra)
        title rating description st = (.error ReviewError.InvalidPDA, st))
    ∧ (i.is_signer = true →
       (find_program_address [pk32 i.key, title] program_id).1 = pa.key →
       (rating > 5 ∨ rating < 1) →
      add_movie_review program_id (i :: pa :: pc :: tm :: ma :: ata :: sp :: tp :: extra)
        title rating description st = (.error ReviewError.InvalidRating, st))
    ∧ (i.is_signer = true →
       (find_program_address [pk32 i.key, title] program_id).1 = pa.key →
       ¬ (rating > 5 ∨ rating < 1) →
       MovieAccountState.get_account_size title description > MovieAccountState.LEN →
      add_movie_review program_id (i :: pa :: pc :: tm :: ma :: ata :: sp :: tp :: extra)
        title rating description st = (.error ReviewError.InvalidDataLength, st)) := by
  refine ⟨?_, ?_, ?_, ?_⟩
  · intro hs
    simp only [add_movie_review]
    rw [if_pos hs]
  · intro hs hpda
    simp only [add_movie_review]
    rw [if_neg (by simp [hs])]
    rw [if_pos hpda]
  · intro hs hpda hr
    simp only [add_movie_review]
    rw [if_neg (by simp [hs])]
    rw [if_neg (fun h => h hpda)]
    rw [if_pos hr]
  · intro hs hpda hr hsz
    simp only [add_movie_review]
    rw [if_neg (by simp [hs])]
    rw [if_neg (fun h => h hpda)]
    rw [if_neg hr]
    rw [if_pos hsz]

theorem update_movie_review_checks
    (program_id : Nat) (i pa : AccountInfo) (extra : List AccountInfo)
    (title : Bytes) (rating : Nat) (description : Bytes) (st : St) :
    (pa.owner ≠ program_id →
      update_movie_review program_id (i :: pa :: extra) title rating description st
        = (.error .InvalidAccountOwner, st))
    ∧ (pa.owner = program_id → i.is_signer = false →
      update_movie_review program_id (i :: pa :: extra) title rating description st
        = (.error .MissingRequiredSignature, st))
    ∧ (pa.owner = program_id → i.is_signer = true →
       decodeReview (getBuf st.bufs pa.key) = none →
      update_movie_review program_id (i :: pa :: extra) title rating description st
        = (.error .BorshIoError, st))
    ∧ (∀ r, pa.owner = program_id → i.is_signer = true →
       decodeReview (getBuf st.bufs pa.key) = some r →
       (find_program_address [pk32 i.key, r.title] program_id).1 ≠ pa.key →
      update_movie_review program_id (i :: pa :: extra) title rating description st
        = (.error ReviewError.InvalidPDA, st))
    ∧ (∀ r, pa.owner = program_id → i.is_signer = true →
       decodeReview (getBuf st.bufs pa.key) = some r →
       (find_program_address [pk32 i.key, r.title] program_id).1 = pa.key →
       r.is_initialized = false →
      update_movie_review program_id (i :: pa :: extra) title rating description st
        = (.error ReviewError.UninitializedAccount, st))
    ∧ (∀ r, pa.owner = program_id → i.is_signer = true →
       decodeReview (getBuf st.bufs pa.key) = some r →
       (find_program_address [pk32 i.key, r.title] program_id).1 = pa.key →
       r.is_initialized = true → (rating > 5 ∨ rating < 1) →
      update_movie_review program_id (i :: pa :: extra) title rating description st
        = (.error ReviewError.InvalidRating, st))
    ∧ (∀ r, pa.owner = program_id → i.is_signer = true →
       decodeReview (getBuf st.bufs pa.key) = some r →
       (find_program_address [pk32 i.key, r.title] program_id).1 = pa.key →
       r.is_initialized = true → ¬ (rating > 5 ∨ rating < 1) →
       MovieAccountState.get_account_size title description > MovieAccountState.LEN →
      update_movie_review program_id (i :: pa :: extra) title rating description st
        = (.error ReviewError.InvalidDataLength, st)) := by
  refine ⟨?_, ?_, ?_, ?_, ?_, ?_, ?_⟩
  · intro how
    simp only [update_movie_review]
    rw [if_pos how]
  · intro how hs
    simp only [update_movie_review]
    rw [if_neg (by simp [how]), if_pos hs]
  · intro how hs hdec
    simp only [update_movie_review]
    rw [if_neg (by simp [how]), if_neg (by simp [hs]), hdec]
  · intro r how hs hdec hpda
    simp [update_movie_review, how, hs, hdec, hpda]
  · intro r how hs hdec hpda hinit
    simp [update_movie_review, how, hs, hdec, hpda, hinit]
  · intro r how hs hdec hpda hinit hr
    simp [update_movie_review, how, hs, hdec, hpda, hinit, hr]
    intro h1 h2
    exact (False.elim (by omega))
  · intro r how hs hdec hpda hinit hr hsz
    simp [update_movie_review, how, hs, hdec, hpda, hinit, hsz]
    intro h
    exact (False.elim (by omega))

theorem add_comment_early_checks
    (program_id : Nat) (cm pr pc pcm tm ma ata sp tp : AccountInfo)
    (extra : List AccountInfo) (comment : Bytes) (st : St) :
    (decodeCounter (getBuf st.bufs pc.key) = none →
      add_comment program_id (cm :: pr :: pc :: pcm :: tm :: ma :: ata :: sp :: tp :: extra)
        comment st = (.error .BorshIoError, st))
    ∧ (∀ cd, decodeCounter (getBuf st.bufs pc.key) = some cd →
       (find_program_address [pk32 pr.key, toBE8 cd.counter] program_id).1 ≠ pcm.key →
      add_comment program_id (cm :: pr :: pc :: pcm :: tm :: ma :: ata :: sp :: tp :: extra)
        comment st = (.error ReviewError.InvalidPDA, st)) := by
  constructor
  · intro hdec
    simp only [add_comment]
    rw [hdec]
  · intro cd hdec hpda
    simp [add_comment, hdec, hpda]

theorem initialize_token_mint_checks
    (program_id : Nat) (i tm ma sp tp : AccountInfo)
    (extra : List AccountInfo) (st : St) :
    ((find_program_address [seedTokenMint] program_id).1 ≠ tm.key →
      initialize_token_mint program_id (i :: tm :: ma :: sp :: tp :: extra) st
        = (.error ReviewError.IncorrectAccount, st))
    ∧ ((find_program_address [seedTokenMint] program_id).1 = tm.key →
       TOKEN_PROGRAM_ID ≠ tp.key →
      initialize_token_mint program_id (i :: tm :: ma :: sp :: tp :: extra) st
        = (.error ReviewError.IncorrectAccount, st))
    ∧ ((find_program_address [seedTokenMint] program_id).1 = tm.key →
       TOKEN_PROGRAM_ID = tp.key →
       (find_program_address [seedTokenAuth] program_id).1 ≠ ma.key →
      initialize_token_mint program_id (i :: tm :: ma :: sp :: tp :: extra) st
        = (.error ReviewError.IncorrectAccount, st)) := by
  refine ⟨?_, ?_, ?_⟩
  · intro hm
    simp only [initialize_token_mint]
    rw [if_pos hm]
  · intro hm htp
    simp only [initialize_token_mint]
    rw [if_neg (fun h => h hm), if_pos htp]
  · intro hm htp ha
    simp only [initialize_token_mint]
    rw [if_neg (fun h => h hm), if_neg (fun h => h htp), if_pos ha]


/-- C1 (amended): each command's validations precede the side effects they
guard, and every validation failure listed here returns with the state
exactly as it was -- no external call issued, no buffer byte written. For
AddReview these are the signer, review-address, rating and size checks; for
UpdateReview the owner, signer, decode, address, initialized, rating and
size checks; for AddComment the counter-decode and comment-address checks;
for InitializeMint the mint, token-program and authority checks. (The
original claim's stronger clause -- that a failing AddReview has issued no
account creation and written no byte -- is refuted by
the counterexample: a failure in the later mint-account checks happens
after both creations and writes.) -/
theorem claim_C1 :
    (∀ (program_id : Nat) (i pa pc tm ma ata sp tp : AccountInfo)
       (extra : List AccountInfo) (title : Bytes) (rating : Nat)
       (description : Bytes) (st : St),
      (i.is_signer = false →
        add_movie_review program_id (i :: pa :: pc :: tm :: ma :: ata :: sp :: tp :: extra)
          title rating description st = (.error .MissingRequiredSignature, st))
      ∧ (i.is_signer = true →
         (find_program_address [pk32 i.key, title] program_id).1 ≠ pa.key →
        add_movie_review program_id (i :: pa :: pc :: tm :: ma :: ata :: sp :: tp :: extra)
          title rating description st = (.error ReviewError.InvalidPDA, st))
      ∧ (i.is_signer = true →
         (find_program_address [pk32 i.key, title] program_id).1 = pa.key →
         (rating > 5 ∨ rating < 1) →
        add_movie_review program_id (i :: pa :: pc :: tm :: ma :: ata :: sp :: tp :: extra)
          title rating description st = (.error ReviewError.InvalidRating, st))
      ∧ (i.is_signer = true →
         (find_program_address [pk32 i.key, title] program_id).1 = pa.key →
         ¬ (rating > 5 ∨ rating < 1) →
         MovieAccountState.get_account_size title description > MovieAccountState.LEN →
        add_movie_review program_id (i :: pa :: pc :: tm :: ma :: ata :: sp :: tp :: extra)
          title rating description st = (.error ReviewError.InvalidDataLength, st)))
  ∧ (∀ (program_id : Nat) (i pa : AccountInfo) (extra : List AccountInfo)
       (title : Bytes) (rating : Nat) (description : Bytes) (st : St),
      (pa.owner ≠ program_id →
        update_movie_review program_id (i :: pa :: extra) title rating description st
          = (.error .InvalidAccountOwner, st))
      ∧ (pa.owner = program_id → i.is_signer = false →
        update_movie_review program_id (i :: pa :: extra) title rating description st
          = (.error .MissingRequiredSignature, st))
      ∧ (pa.owner = program_id → i.is_signer = true →
         decodeReview (getBuf st.bufs pa.key) = none →
        update_movie_review program_id (i :: pa :: extra) title rating description st
          = (.error .BorshIoError, st))
      ∧ (∀ r, pa.owner = program_id → i.is_signer = true →
         decodeReview (getBuf st.bufs pa.key) = some r →
         (find_program_address [pk32 i.key, r.title] program_id).1 ≠ pa.key →
        update_movie_review program_id (i :: pa :: extra) title rating description st
          = (.error ReviewError.InvalidPDA, st))
      ∧ (∀ r, pa.owner = program_id → i.is_signer = true →
         decodeReview (getBuf st.bufs pa.key) = some r →
         (find_program_address [pk32 i.key, r.title] program_id).1 = pa.key →
         r.is_initialized = false →
        update_movie_review program_id (i :: pa :: extra) title rating description st
          = (.error ReviewError.UninitializedAccount, st))
      ∧ (∀ r, pa.owner = program_id → i.is_signer = true →
         decodeReview (getBuf st.bufs pa.key) = some r →
         (find_program_address [pk32 i.key, r.title] program_id).1 = pa.key →
         r.is_initialized = true → (rating > 5 ∨ rating < 1) →
        update_movie_review program_id (i :: pa :: extra) title rating description st
          = (.error ReviewError.InvalidRating, st))
      ∧ (∀ r, pa.owner = program_id → i.is_signer = true →
         decodeReview (getBuf st.bufs pa.key) = some r →
         (find_program_address [pk32 i.key, r.title] program_id).1 = pa.key →
         r.is_initialized = true → ¬ (rating > 5 ∨ rating < 1) →
         MovieAccountState.get_account_size title description > MovieAccountState.LEN →
        update_movie_review program_id (i :: pa :: extra) title rating description st
          = (.error ReviewError.InvalidDataLength, st)))
  ∧ (∀ (program_id : Nat) (cm pr pc pcm tm ma ata sp tp : AccountInfo)
       (extra : List AccountInfo) (comment : Bytes) (st : St),
      (decodeCounter (getBuf st.bufs pc.key) = none →
        add_comment program_id
          (cm :: pr :: pc :: pcm :: tm :: ma :: ata :: sp :: tp :: extra)
          comment st = (.error .BorshIoError, st))
      ∧ (∀ cd, decodeCounter (getBuf st.bufs pc.key) = some cd →
         (find_program_address [pk32 pr.key, toBE8 cd.counter] program_id).1 ≠ pcm.key →
        add_comment program_id
          (cm :: pr :: pc :: pcm :: tm :: ma :: ata :: sp :: tp :: extra)
          comment st = (.error ReviewError.InvalidPDA, st)))
  ∧ (∀ (program_id : Nat) (i tm ma sp tp : AccountInfo)
       (extra : List AccountInfo) (st : St),
      ((find_program_address [seedTokenMint] program_id).1 ≠ tm.key →
        initialize_token_mint program_id (i :: tm :: ma :: sp :: tp :: extra) st
          = (.error ReviewError.IncorrectAccount, st))
      ∧ ((find_program_address [seedTokenMint] program_id).1 = tm.key →
         TOKEN_PROGRAM_ID ≠ tp.key →
        initialize_token_mint program_id (i :: tm :: ma :: sp :: tp :: extra) st
          = (.error ReviewError.IncorrectAccount, st))
      ∧ ((find_program_address [seedTokenMint] program_id).1 = tm.key →
         TOKEN_PROGRAM_ID = tp.key →
         (find_program_address [seedTokenAuth] program_id).1 ≠ ma.key →
        initialize_token_mint program_id (i :: tm :: ma :: sp :: tp :: extra) st
          = (.error ReviewError.IncorrectAccount, st))) :=
  ⟨add_movie_review_early_checks, update_movie_review_checks,
   add_comment_early_checks, initialize_token_mint_checks⟩

set_option maxRecDepth 100000 in
/-- C1 counterexample: an AddReview invocation that passes all early
validations but supplies a wrong token-mint account fails with
`IncorrectAccount` only after it has issued both account creations and
written both the review and the counter buffers, refuting the claim that a
failing AddReview has issued no account-creation call and written no byte. -/
theorem claim_C1_counterexample :
    (add_movie_review exPid [exSigner, exReviewAcct, exCounterAcct, exBadMintAcct,
        exAuthAcct, exAtaAcct, exSystemAcct, exTokenAcct] exTitle 4 exBody
        ⟨[], []⟩).1 = .error ReviewError.IncorrectAccount
  ∧ (add_movie_review exPid [exSigner, exReviewAcct, exCounterAcct, exBadMintAcct,
        exAuthAcct, exAtaAcct, exSystemAcct, exTokenAcct] exTitle 4 exBody
        ⟨[], []⟩).2.log
      = [.createAccount 3 exReviewKey (rentMinimumBalance 1000) 1000 exPid,
         .createAccount 3 exCounterKey (rentMinimumBalance 20) 20 exPid]
  ∧ decodeReview (getBuf (add_movie_review exPid [exSigner, exReviewAcct,
        exCounterAcct, exBadMintAcct, exAuthAcct, exAtaAcct, exSystemAcct,
        exTokenAcct] exTitle 4 exBody ⟨[], []⟩).2.bufs exReviewKey)
      = some ⟨reviewDisc, true, 3, 4, exTitle, exBody⟩
  ∧ counterView (add_movie_review exPid [exSigner, exReviewAcct, exCounterAcct,
        exBadMintAcct, exAuthAcct, exAtaAcct, exSystemAcct, exTokenAcct]
        exTitle 4 exBody ⟨[], []⟩).2.bufs exCounterKey = some 0 :=
  ⟨rfl, rfl, rfl, rfl⟩

theorem claim_C1_witness :
    add_movie_review exPid [⟨3, false, 0⟩, exReviewAcct, exCounterAcct, exMintAcct,
      exAuthAcct, exAtaAcct, exSystemAcct, exTokenAcct] exTitle 4 exBody ⟨[], []⟩
      = (.error .MissingRequiredSignature, ⟨[], []⟩) :=
  (claim_C1.1 exPid ⟨3, false, 0⟩ exReviewAcct exCounterAcct exMintAcct exAuthAcct
    exAtaAcct exSystemAcct exTokenAcct [] exTitle 4 exBody ⟨[], []⟩).1 rfl


/-- C5 (amended): UpdateReview's checks run in this order: it fails
`InvalidAccountOwner` when the review buffer is not program-owned;
otherwise `MissingSignature` when the first buffer is not a signer;
otherwise it decodes the stored record (`DecodeError` on a malformed
buffer); the review address is then re-derived from (signer identity, the
title stored in the record -- not the request title) and the invocation
fails `InvalidDerivedAddress` when it differs from the supplied buffer's
address; only past that check does it fail `UninitializedAccount` when the
record is not initialized. -/
theorem claim_C5 :
    ∀ (program_id : Nat) (i pa : AccountInfo) (extra : List AccountInfo)
      (title : Bytes) (rating : Nat) (description : Bytes) (st : St),
      (pa.owner ≠ program_id →
        update_movie_review program_id (i :: pa :: extra) title rating description st
          = (.error .InvalidAccountOwner, st))
      ∧ (pa.owner = program_id → i.is_signer = false →
        update_movie_review program_id (i :: pa :: extra) title rating description st
          = (.error .MissingRequiredSignature, st))
      ∧ (pa.owner = program_id → i.is_signer = true →
         decodeReview (getBuf st.bufs pa.key) = none →
        update_movie_review program_id (i :: pa :: extra) title rating description st
          = (.error .BorshIoError, st))
      ∧ (∀ r, pa.owner = program_id → i.is_signer = true →
         decodeReview (getBuf st.bufs pa.key) = some r →
         (find_program_address [pk32 i.key, r.title] program_id).1 ≠ pa.key →
        update_movie_review program_id (i :: pa :: extra) title rating description st
          = (.error ReviewError.InvalidPDA, st))
      ∧ (∀ r, pa.owner = program_id → i.is_signer = true →
         decodeReview (getBuf st.bufs pa.key) = some r →
         (find_program_address [pk32 i.key, r.title] program_id).1 = pa.key →
         r.is_initialized = false →
        update_movie_review program_id (i :: pa :: extra) title rating description st
          = (.error ReviewError.UninitializedAccount, st)) :=
  fun program_id i pa extra title rating description st =>
    let h := update_movie_review_checks program_id i pa extra title rating description st
    ⟨h.1, h.2.1, h.2.2.1, h.2.2.2.1, h.2.2.2.2.1⟩

/-- C5 counterexample: (a) a non-signer invocation on a buffer with the
wrong owner fails `InvalidAccountOwner`, not `MissingSignature`; (b) an
invocation whose stored record is uninitialized but whose derived address
mismatches fails `InvalidDerivedAddress` (InvalidPDA), not
`UninitializedAccount` -- the claim's unconditional clauses are false. -/
theorem claim_C5_counterexample :
    (update_movie_review exPid [⟨3, false, 0⟩, ⟨50, false, 1⟩] exTitle 4 exBody
        ⟨[], []⟩).1 = .error .InvalidAccountOwner
  ∧ PErr.InvalidAccountOwner ≠ PErr.MissingRequiredSignature
  ∧ (update_movie_review exPid [⟨3, true, 0⟩, ⟨50, false, exPid⟩] exTitle 4 exBody
        ⟨[(50, encodeReview ⟨reviewDisc, false, 3, 4, exTitle, exBody⟩)], []⟩).1
      = .error ReviewError.InvalidPDA
  ∧ ReviewError.InvalidPDA ≠ ReviewError.UninitializedAccount
  ∧ decodeReview (getBuf [(50, encodeReview ⟨reviewDisc, false, 3, 4, exTitle, exBody⟩)] 50)
      = some ⟨reviewDisc, false, 3, 4, exTitle, exBody⟩ :=
  ⟨rfl, by decide, rfl, by decide, rfl⟩

theorem claim_C5_witness :
    update_movie_review exPid [⟨3, true, 0⟩, ⟨exReviewKey, false, exPid⟩] exTitle 4 exBody
        ⟨[(exReviewKey, encodeReview ⟨reviewDisc, false, 3, 4, exTitle, exBody⟩)], []⟩
      = (.error ReviewError.UninitializedAccount,
         ⟨[(exReviewKey, encodeReview ⟨reviewDisc, false, 3, 4, exTitle, exBody⟩)], []⟩) :=
  (claim_C5 exPid ⟨3, true, 0⟩ ⟨exReviewKey, false, exPid⟩ [] exTitle 4 exBody
      ⟨[(exReviewKey, encodeReview ⟨reviewDisc, false, 3, 4, exTitle, exBody⟩)], []⟩
    ).2.2.2.2 ⟨reviewDisc, false, 3, 4, exTitle, exBody⟩ rfl rfl rfl rfl rfl


/-- Bounds carried by any successfully decoded review record: each field
fits its Rust type. -/
theorem decodeReview_bounds {b : Bytes} {r : MovieAccountState}
    (h : decodeReview b = some r) :
    r.discriminator.length < 256 ^ 4 ∧ r.reviewer < 256 ^ 32 ∧ r.rating < 256
      ∧ r.title.length < 256 ^ 4 ∧ r.description.length < 256 ^ 4 := by
  simp only [decodeReview] at h
  split at h
  · exact absurd h (by simp)
  next d b1 h1 =>
  split at h
  · exact absurd h (by simp)
  next i b2 h2 =>
  split at h
  · exact absurd h (by simp)
  next rv b3 h3 =>
  split at h
  · exact absurd h (by simp)
  next rt b4 h4 =>
  split at h
  · exact absurd h (by simp)
  next t b5 h5 =>
  split at h
  · exact absurd h (by simp)
  next ds b6 h6 =>
  have hr := Option.some.inj h
  subst hr
  exact ⟨(readString_eq_some h1).2, (readPubkey_eq_some h3).2,
    (readU8_eq_some h4).2, (readString_eq_some h5).2, (readString_eq_some h6).2⟩


/-- C6: a successful UpdateReview changes only the rating and description
of the stored review record: the record decoded from the buffer afterwards
has the request's rating and description, while its discriminator,
initialized flag, reviewer and title are those decoded beforehand; no
other buffer changes and no external call is issued. -/
theorem claim_C6 :
    ∀ (program_id : Nat) (i pa : AccountInfo) (extra : List AccountInfo)
      (title : Bytes) (rating : Nat) (description : Bytes) (st st' : St),
      update_movie_review program_id (i :: pa :: extra) title rating description st
        = (.ok (), st') →
      ∃ r r', decodeReview (getBuf st.bufs pa.key) = some r ∧
        decodeReview (getBuf st'.bufs pa.key) = some r' ∧
        r'.discriminator = r.discriminator ∧
        r'.is_initialized = r.is_initialized ∧
        r'.reviewer = r.reviewer ∧
        r'.title = r.title ∧
        r'.rating = rating ∧
        r'.description = description ∧
        st'.log = st.log ∧
        (∀ a, a ≠ pa.key → getBuf st'.bufs a = getBuf st.bufs a) := by
  intro program_id i pa extra title rating description st st' h
  simp only [update_movie_review] at h
  split at h
  · exact absurd h (by simp)
  next how =>
  split at h
  · exact absurd h (by simp)
  next hs =>
  split at h
  · exact absurd h (by simp)
  next r hdec =>
  split at h
  · exact absurd h (by simp)
  next hpda =>
  split at h
  · exact absurd h (by simp)
  next hinit =>
  split at h
  · exact absurd h (by simp)
  next hr =>
  split at h
  · exact absurd h (by simp)
  next hsz =>
  split at h
  · exact absurd h (by simp)
  next a st1 hser =>
  have hst : st1 = st' := by
    have := congrArg Prod.snd h
    simpa using this
  subst hst
  simp only [serializeInto] at hser
  split at hser
  · next hfit =>
    have hst1 := congrArg Prod.snd hser
    simp only at hst1
    refine ⟨r, { r with rating := rating, description := description },
      hdec, ?_, rfl, rfl, rfl, rfl, rfl, rfl, ?_, ?_⟩
    · rw [← hst1]
      simp only [getBuf_setBuf, if_pos rfl]
      obtain ⟨hd, hrv, hrt, ht, hds⟩ := decodeReview_bounds hdec
      have hrt2 : rating < 256 := by
        rcases Nat.lt_or_ge rating 256 with hlt | hge
        · exact hlt
        · exact absurd (by omega : rating > 5 ∨ rating < 1) hr
      have hds2 : description.length < 256 ^ 4 := by
        rw [MovieAccountState.get_account_size, MovieAccountState.LEN] at hsz
        omega
      exact decodeReview_append
        { r with rating := rating, description := description } _ hd hrv hrt2 ht hds2
    · rw [← hst1]
    · intro a ha
      rw [← hst1]
      simp only [getBuf_setBuf, if_neg ha]
  · next hfit =>
    exact absurd (congrArg Prod.fst hser) (by simp)


/-- A stored, initialized sample review record. -/
def exStoredReview : MovieAccountState := ⟨reviewDisc, true, 3, 4, exTitle, exBody⟩

/-- The buffer state holding the sample review at its derived address. -/
def exUpdSt : St := ⟨[(exReviewKey, encodeReview exStoredReview)], []⟩

/-- A concrete successful UpdateReview run on the sample review. -/
def exUpdRun : Except PErr Unit × St :=
  update_movie_review exPid [⟨3, true, 0⟩, ⟨exReviewKey, false, exPid⟩]
    exTitle 2 [byte 67] exUpdSt

theorem claim_C6_witness :
    ∃ r r', decodeReview (getBuf exUpdSt.bufs exReviewKey) = some r ∧
      decodeReview (getBuf exUpdRun.2.bufs exReviewKey) = some r' ∧
      r'.discriminator = r.discriminator ∧
      r'.is_initialized = r.is_initialized ∧
      r'.reviewer = r.reviewer ∧
      r'.title = r.title ∧
      r'.rating = 2 ∧
      r'.description = [byte 67] ∧
      exUpdRun.2.log = exUpdSt.log ∧
      (∀ a, a ≠ exReviewKey → getBuf exUpdRun.2.bufs a = getBuf exUpdSt.bufs a) :=
  claim_C6 exPid ⟨3, true, 0⟩ ⟨exReviewKey, false, exPid⟩ [] exTitle 2 [byte 67]
    exUpdSt exUpdRun.2 (by rfl)


/-! ### Inversions of the state helpers -/

theorem createAccount_ok {st : St} {payer target lamports space owner : Nat}
    {st1 : St} (h : createAccount st payer target lamports space owner = .ok st1) :
    getBuf st.bufs target = [] ∧
    st1.bufs = setBuf st.bufs target (List.replicate space (byte 0)) ∧
    st1.log = st.log ++ [.createAccount payer target lamports space owner] := by
  simp only [createAccount] at h
  split at h
  · next hemp =>
    have h1 := Except.ok.inj h
    exact ⟨hemp, by rw [← h1], by rw [← h1]⟩
  · exact absurd h (by simp)

theorem serializeInto_ok {st : St} {k : Nat} {enc : Bytes} {u : Unit} {st1 : St}
    (h : serializeInto st k enc = (.ok u, st1)) :
    enc.length ≤ (getBuf st.bufs k).length ∧
    st1.bufs = setBuf st.bufs k (enc ++ (getBuf st.bufs k).drop enc.length) ∧
    st1.log = st.log := by
  simp only [serializeInto] at h
  split at h
  · next hfit =>
    have h1 := congrArg Prod.snd h
    simp only at h1
    exact ⟨hfit, by rw [← h1], by rw [← h1]⟩
  · exact absurd (congrArg Prod.fst h) (by simp)

theorem mint_reward_ok {program_id : Nat} {user tm ma ata tp : AccountInfo}
    {amount : Nat} {st : St} {u : Unit} {st' : St}
    (h : mint_reward program_id user tm ma ata tp amount st = (.ok u, st')) :
    (find_program_address [seedTokenMint] program_id).1 = tm.key ∧
    (find_program_address [seedTokenAuth] program_id).1 = ma.key ∧
    get_associated_token_address user.key tm.key = ata.key ∧
    TOKEN_PROGRAM_ID = tp.key ∧
    st'.bufs = st.bufs ∧
    st'.log = st.log ++ [.mintTo tp.key tm.key ata.key ma.key
      (sol_to_lamports amount)] := by
  simp only [mint_reward] at h
  split at h
  · exact absurd (congrArg Prod.fst h) (by simp)
  next h1 =>
  split at h
  · exact absurd (congrArg Prod.fst h) (by simp)
  next h2 =>
  split at h
  · exact absurd (congrArg Prod.fst h) (by simp)
  next h3 =>
  split at h
  · exact absurd (congrArg Prod.fst h) (by simp)
  next h4 =>
  have h5 := congrArg Prod.snd h
  simp only at h5
  exact ⟨not_ne_iff.mp h1, not_ne_iff.mp h2, not_ne_iff.mp h3, not_ne_iff.mp h4,
    by rw [← h5], by rw [← h5]⟩

/-! ### Canonical decode shapes -/

theorem decodeCounter_eq_some {b : Bytes} {cd : MovieCommentCounter}
    (h : decodeCounter b = some cd) :
    ∃ rest, b = encodeCounter cd ++ rest
      ∧ cd.discriminator.length < 256 ^ 4 ∧ cd.counter < 256 ^ 8 := by
  simp only [decodeCounter] at h
  split at h
  · exact absurd h (by simp)
  next d b1 h1 =>
  split at h
  · exact absurd h (by simp)
  next i b2 h2 =>
  split at h
  · exact absurd h (by simp)
  next c b3 h3 =>
  have hr := Option.some.inj h
  subst hr
  obtain ⟨hb, hd⟩ := readString_eq_some h1
  have hb1 := readBool_eq_some h2
  obtain ⟨hb2, hc⟩ := readU64_eq_some h3
  refine ⟨b3, ?_, hd, hc⟩
  rw [hb, hb1, hb2]
  simp [encodeCounter, List.append_assoc]

theorem decodeReview_eq_some {b : Bytes} {r : MovieAccountState}
    (h : decodeReview b = some r) :
    ∃ rest, b = encodeReview r ++ rest := by
  simp only [decodeReview] at h
  split at h
  · exact absurd h (by simp)
  next d b1 h1 =>
  split at h
  · exact absurd h (by simp)
  next i b2 h2 =>
  split at h
  · exact absurd h (by simp)
  next rv b3 h3 =>
  split at h
  · exact absurd h (by simp)
  next rt b4 h4 =>
  split at h
  · exact absurd h (by simp)
  next t b5 h5 =>
  split at h
  · exact absurd h (by simp)
  next ds b6 h6 =>
  have hr := Option.some.inj h
  subst hr
  obtain ⟨hb, _⟩ := readString_eq_some h1
  have hb1 := readBool_eq_some h2
  obtain ⟨hb2, _⟩ := readPubkey_eq_some h3
  obtain ⟨hb3, _⟩ := readU8_eq_some h4
  obtain ⟨hb4, _⟩ := readString_eq_some h5
  obtain ⟨hb5, _⟩ := readString_eq_some h6
  refine ⟨b6, ?_⟩
  rw [hb, hb1, hb2, hb3, hb4, hb5]
  simp [encodeReview, pk32, List.append_assoc]

/-! ### Counter views of stored records -/

theorem toLE_add (a b n : Nat) :
    toLE (a + b) n = toLE a n ++ toLE b (n / 256 ^ a) := by
  induction a generalizing n with
  | zero => simp [toLE]
  | succ a ih =>
    have hh : a + 1 + b = (a + b) + 1 := by omega
    rw [hh]
    show byte n :: toLE (a + b) (n / 256)
        = (byte n :: toLE a (n / 256)) ++ toLE b (n / 256 ^ (a + 1))
    rw [ih, List.cons_append, Nat.div_div_eq_div_mul, ← pow_succ']

theorem readU64_append_mod (n : Nat) (r : Bytes) :
    readU64 (u64le n ++ r) = some (n % 256 ^ 8, r) := by
  simp only [readU64, u64le]
  rw [readN_exact (toLE 8 n) r (toLE_length 8 n)]
  simp [leVal_toLE]

theorem decodeCounter_append_mod (c : MovieCommentCounter) (rest : Bytes)
    (hd : c.discriminator.length < 256 ^ 4) :
    decodeCounter (encodeCounter c ++ rest)
      = some ⟨c.discriminator, c.is_initialized, c.counter % 256 ^ 8⟩ := by
  simp only [decodeCounter, encodeCounter, List.append_assoc, List.singleton_append,
    List.cons_append, List.nil_append, readString_append _ _ hd, readBool_append,
    readU64_append_mod]

/-- A buffer that decodes as a review record also decodes as a counter
record: the same discriminator and flag are read, and the counter is the
low eight bytes of the reviewer identity. -/
theorem decodeCounter_of_review {b : Bytes} {r : MovieAccountState}
    (h : decodeReview b = some r) :
    decodeCounter b
      = some ⟨r.discriminator, r.is_initialized, r.reviewer % 256 ^ 8⟩ := by
  obtain ⟨rest, hb⟩ := decodeReview_eq_some h
  obtain ⟨hd, _, _, _, _⟩ := decodeReview_bounds h
  subst hb
  have hsplit : pk32 r.reviewer
      = u64le r.reviewer ++ toLE 24 (r.reviewer / 256 ^ 8) := by
    rw [pk32, u64le, show (32 : Nat) = 8 + 24 from rfl, toLE_add]
  simp only [encodeReview, List.append_assoc, List.singleton_append,
    List.cons_append, List.nil_append, hsplit]
  simp only [decodeCounter, readString_append _ _ hd, readBool_append,
    List.append_assoc, readU64_append_mod]


theorem readPubkey_append_mod (n : Nat) (r : Bytes) :
    readPubkey (pk32 n ++ r) = some (n % 256 ^ 32, r) := by
  simp only [readPubkey, pk32]
  rw [readN_exact (toLE 32 n) r (toLE_length 32 n)]
  simp [leVal_toLE]

theorem decodeComment_append_mod (c : MovieComment) (rest : Bytes)
    (hd : c.discriminator.length < 256 ^ 4) (hc : c.comment.length < 256 ^ 4) :
    decodeComment (encodeComment c ++ rest)
      = some ⟨c.discriminator, c.is_initialized, c.review % 256 ^ 32,
              c.commenter % 256 ^ 32, c.comment, c.count % 256 ^ 8⟩ := by
  simp only [decodeComment, encodeComment, List.append_assoc, List.singleton_append,
    List.cons_append, List.nil_append, readString_append _ _ hd, readBool_append,
    readPubkey_append_mod, readString_append _ _ hc, readU64_append_mod]

theorem update_movie_review_ok {program_id : Nat} {i pa : AccountInfo}
    {extra : List AccountInfo} {title : Bytes} {rating : Nat}
    {description : Bytes} {st : St} {u : Unit} {st' : St}
    (h : update_movie_review program_id (i :: pa :: extra) title rating description st
      = (.ok u, st')) :
    st'.log = st.log ∧
    (∀ a, a ≠ pa.key → getBuf st'.bufs a = getBuf st.bufs a) ∧
    (∀ c, counterView st.bufs pa.key = some c →
      counterView st'.bufs pa.key = some c) := by
  simp only [update_movie_review] at h
  split at h
  · exact absurd h (by simp)
  next how =>
  split at h
  · exact absurd h (by simp)
  next hs =>
  split at h
  · exact absurd h (by simp)
  next r hdec =>
  split at h
  · exact absurd h (by simp)
  next hpda =>
  split at h
  · exact absurd h (by simp)
  next hinit =>
  split at h
  · exact absurd h (by simp)
  next hr =>
  split at h
  · exact absurd h (by simp)
  next hsz =>
  split at h
  · exact absurd h (by simp)
  next a1 st1 hser =>
  have hst : st1 = st' := by simpa using congrArg Prod.snd h
  subst hst
  obtain ⟨hfit, hbufs, hlog⟩ := serializeInto_ok hser
  refine ⟨hlog, ?_, ?_⟩
  · intro a ha
    rw [hbufs, getBuf_setBuf, if_neg ha]
  · intro c hc
    obtain ⟨hd, hrv, hrt0, ht, hds0⟩ := decodeReview_bounds hdec
    have hrt2 : rating < 256 := by
      rcases Nat.lt_or_ge rating 256 with hlt | hge
      · exact hlt
      · exact absurd (by omega : rating > 5 ∨ rating < 1) hr
    have hds2 : description.length < 256 ^ 4 := by
      rw [MovieAccountState.get_account_size, MovieAccountState.LEN] at hsz
      omega
    have hnew : decodeReview (getBuf st1.bufs pa.key)
        = some { r with rating := rating, description := description } := by
      rw [hbufs, getBuf_setBuf, if_pos rfl]
      exact decodeReview_append
        { r with rating := rating, description := description } _ hd hrv hrt2 ht hds2
    have hold := decodeCounter_of_review hdec
    have hnew2 := decodeCounter_of_review hnew
    simp only [counterView, hold, Option.map_some'] at hc
    simp only [counterView, hnew2, Option.map_some']
    exact hc

theorem initialize_token_mint_ok {program_id : Nat} {i tm ma sp tp : AccountInfo}
    {extra : List AccountInfo} {st : St} {u : Unit} {st' : St}
    (h : initialize_token_mint program_id (i :: tm :: ma :: sp :: tp :: extra) st
      = (.ok u, st')) :
    getBuf st.bufs tm.key = [] ∧
    (∀ a, a ≠ tm.key → getBuf st'.bufs a = getBuf st.bufs a) := by
  simp only [initialize_token_mint] at h
  split at h
  · exact absurd h (by simp)
  next h1 =>
  split at h
  · exact absurd h (by simp)
  next h2 =>
  split at h
  · exact absurd h (by simp)
  next h3 =>
  split at h
  · exact absurd h (by simp)
  next st1 hca =>
  obtain ⟨hemp, hbufs, hlog⟩ := createAccount_ok hca
  have hst : st'.bufs = st1.bufs := by
    have h5 := congrArg Prod.snd h
    simp only at h5
    rw [← h5]
  refine ⟨hemp, fun a ha => ?_⟩
  rw [hst, hbufs, getBuf_setBuf, if_neg ha]


theorem add_movie_review_ok {program_id : Nat}
    {i pa pc tm ma ata sp tp : AccountInfo} {extra : List AccountInfo}
    {title : Bytes} {rating : Nat} {description : Bytes} {st : St} {u : Unit}
    {st' : St}
    (h : add_movie_review program_id
      (i :: pa :: pc :: tm :: ma :: ata :: sp :: tp :: extra)
      title rating description st = (.ok u, st')) :
    getBuf st.bufs pa.key = [] ∧
    getBuf st.bufs pc.key = [] ∧
    (∀ a, a ≠ pa.key → a ≠ pc.key → getBuf st'.bufs a = getBuf st.bufs a) ∧
    (find_program_address [seedTokenMint] program_id).1 = tm.key ∧
    (find_program_address [seedTokenAuth] program_id).1 = ma.key ∧
    get_associated_token_address i.key tm.key = ata.key ∧
    TOKEN_PROGRAM_ID = tp.key := by
  simp only [add_movie_review] at h
  split at h
  · exact absurd h (by simp)
  next hs =>
  split at h
  · exact absurd h (by simp)
  next hpda =>
  split at h
  · exact absurd h (by simp)
  next hr =>
  split at h
  · exact absurd h (by simp)
  next hsz =>
  split at h
  · exact absurd h (by simp)
  next st1 hca1 =>
  split at h
  · exact absurd h (by simp)
  next rdata hdec1 =>
  split at h
  · exact absurd h (by simp)
  next hinit1 =>
  split at h
  · exact absurd h (by simp)
  next a1 st2 hser1 =>
  split at h
  · exact absurd h (by simp)
  next hcpda =>
  split at h
  · exact absurd h (by simp)
  next st3 hca2 =>
  split at h
  · exact absurd h (by simp)
  next cdata hdec2 =>
  split at h
  · exact absurd h (by simp)
  next hinit2 =>
  split at h
  · exact absurd h (by simp)
  next a2 st4 hser2 =>
  obtain ⟨hmint, hauth, hata, htp, hbufs5, hlog5⟩ := mint_reward_ok h
  obtain ⟨hemp1, hbufs1, hlog1⟩ := createAccount_ok hca1
  obtain ⟨hfit1, hbufs2, hlog2⟩ := serializeInto_ok hser1
  obtain ⟨hemp2, hbufs3, hlog3⟩ := createAccount_ok hca2
  obtain ⟨hfit2, hbufs4, hlog4⟩ := serializeInto_ok hser2
  have hne : pc.key ≠ pa.key := by
    intro hkey
    rw [hbufs2, getBuf_setBuf, if_pos hkey] at hemp2
    have hlen := congrArg List.length hemp2
    rw [List.length_append, encodeReview_length] at hlen
    simp only [List.length_nil] at hlen
    omega
  have hpcB : getBuf st.bufs pc.key = [] := by
    rw [hbufs2, getBuf_setBuf, if_neg hne, hbufs1, getBuf_setBuf, if_neg hne] at hemp2
    exact hemp2
  refine ⟨hemp1, hpcB, ?_, hmint, hauth, hata, htp⟩
  intro a ha hc
  rw [hbufs5, hbufs4, getBuf_setBuf, if_neg hc, hbufs3, getBuf_setBuf, if_neg hc,
    hbufs2, getBuf_setBuf, if_neg ha, hbufs1, getBuf_setBuf, if_neg ha]

theorem add_comment_ok {program_id : Nat}
    {cm pr pc pcm tm ma ata sp tp : AccountInfo} {extra : List AccountInfo}
    {comment : Bytes} {st : St} {u : Unit} {st' : St}
    (h : add_comment program_id
      (cm :: pr :: pc :: pcm :: tm :: ma :: ata :: sp :: tp :: extra)
      comment st = (.ok u, st')) :
    ∃ cd, decodeCounter (getBuf st.bufs pc.key) = some cd ∧
      (find_program_address [pk32 pr.key, toBE8 cd.counter] program_id).1 = pcm.key ∧
      getBuf st.bufs pcm.key = [] ∧
      pc.key ≠ pcm.key ∧
      counterView st'.bufs pc.key = some ((cd.counter + 1) % 256 ^ 8) ∧
      (comment.length < 256 ^ 4 →
        ∃ cmr, decodeComment (getBuf st'.bufs pcm.key) = some cmr ∧
          cmr.discriminator = commentDisc ∧ cmr.is_initialized = true ∧
          cmr.review = pr.key % 256 ^ 32 ∧ cmr.commenter = cm.key % 256 ^ 32 ∧
          cmr.comment = comment) ∧
      (∀ a, a ≠ pc.key → a ≠ pcm.key → getBuf st'.bufs a = getBuf st.bufs a) ∧
      (find_program_address [seedTokenMint] program_id).1 = tm.key ∧
      (find_program_address [seedTokenAuth] program_id).1 = ma.key ∧
      get_associated_token_address cm.key tm.key = ata.key ∧
      TOKEN_PROGRAM_ID = tp.key := by
  simp only [add_comment] at h
  split at h
  · exact absurd h (by simp)
  next cd hdec =>
  split at h
  · exact absurd h (by simp)
  next hpda =>
  split at h
  · exact absurd h (by simp)
  next st1 hca =>
  split at h
  · exact absurd h (by simp)
  next cmd0 hdecC =>
  split at h
  · exact absurd h (by simp)
  next hinitC =>
  split at h
  · exact absurd h (by simp)
  next a1 st2 hser1 =>
  split at h
  · exact absurd h (by simp)
  next a2 st3 hser2 =>
  obtain ⟨hmint, hauth, hata, htp, hbufs4, hlog4⟩ := mint_reward_ok h
  obtain ⟨hempC, hbufs1, hlog1⟩ := createAccount_ok hca
  obtain ⟨hfit1, hbufs2, hlog2⟩ := serializeInto_ok hser1
  obtain ⟨hfit2, hbufs3, hlog3⟩ := serializeInto_ok hser2
  have hne : pc.key ≠ pcm.key := by
    intro hkey
    rw [hkey, hempC, decodeCounter_nil] at hdec
    exact absurd hdec (by simp)
  have hB2 : getBuf st2.bufs pc.key = getBuf st.bufs pc.key := by
    rw [hbufs2, getBuf_setBuf, if_neg hne, hbufs1, getBuf_setBuf, if_neg hne]
  obtain ⟨restB, hBshape, hdl, hclt⟩ := decodeCounter_eq_some hdec
  have hcv : counterView st'.bufs pc.key = some ((cd.counter + 1) % 256 ^ 8) := by
    have hlen : (encodeCounter { cd with counter := cd.counter + 1 }).length
        = (encodeCounter cd).length := by
      rw [encodeCounter_length, encodeCounter_length]
    rw [counterView, hbufs4, hbufs3, getBuf_setBuf, if_pos rfl, hB2, hBshape,
      hlen, List.drop_left,
      decodeCounter_append_mod { cd with counter := cd.counter + 1 } restB hdl,
      Option.map_some']
  refine ⟨cd, hdec, not_ne_iff.mp hpda, hempC, hne, hcv, ?_, ?_, hmint, hauth,
    hata, htp⟩
  · intro hcml
    refine ⟨⟨commentDisc, true, pr.key % 256 ^ 32, cm.key % 256 ^ 32, comment,
      cmd0.count % 256 ^ 8⟩, ?_, rfl, rfl, rfl, rfl, rfl⟩
    rw [hbufs4, hbufs3, getBuf_setBuf, if_neg (fun hx => hne hx.symm),
      hbufs2, getBuf_setBuf, if_pos rfl]
    exact decodeComment_append_mod
      { discriminator := commentDisc, is_initialized := true, review := pr.key,
        commenter := cm.key, comment := comment, count := cmd0.count } _
      (show commentDisc.length < 256 ^ 4 by decide) hcml
  · intro a hac hacm
    rw [hbufs4, hbufs3, getBuf_setBuf, if_neg hac, hbufs2, getBuf_setBuf,
      if_neg hacm, hbufs1, getBuf_setBuf, if_neg hacm]


/-! ### Account-shape inversions: a success implies enough accounts -/

theorem add_movie_review_ok_any {program_id : Nat} {accounts : List AccountInfo}
    {title : Bytes} {rating : Nat} {description : Bytes} {st : St} {u : Unit}
    {st' : St}
    (h : add_movie_review program_id accounts title rating description st
      = (.ok u, st')) :
    ∃ i pa pc tm ma ata sp tp extra,
      accounts = i :: pa :: pc :: tm :: ma :: ata :: sp :: tp :: extra := by
  rcases accounts with _ | ⟨i, _ | ⟨pa, _ | ⟨pc, _ | ⟨tm, _ | ⟨ma, _ | ⟨ata,
    _ | ⟨sp, _ | ⟨tp, extra⟩⟩⟩⟩⟩⟩⟩⟩
  · simp [add_movie_review] at h
  · simp [add_movie_review] at h
  · simp [add_movie_review] at h
  · simp [add_movie_review] at h
  · simp [add_movie_review] at h
  · simp [add_movie_review] at h
  · simp [add_movie_review] at h
  · simp [add_movie_review] at h
  · exact ⟨i, pa, pc, tm, ma, ata, sp, tp, extra, rfl⟩

theorem update_movie_review_ok_any {program_id : Nat} {accounts : List AccountInfo}
    {title : Bytes} {rating : Nat} {description : Bytes} {st : St} {u : Unit}
    {st' : St}
    (h : update_movie_review program_id accounts title rating description st
      = (.ok u, st')) :
    ∃ i pa extra, accounts = i :: pa :: extra := by
  rcases accounts with _ | ⟨i, _ | ⟨pa, extra⟩⟩
  · simp [update_movie_review] at h
  · simp [update_movie_review] at h
  · exact ⟨i, pa, extra, rfl⟩

theorem add_comment_ok_any {program_id : Nat} {accounts : List AccountInfo}
    {comment : Bytes} {st : St} {u : Unit} {st' : St}
    (h : add_comment program_id accounts comment st = (.ok u, st')) :
    ∃ cm pr pc pcm tm ma ata sp tp extra,
      accounts = cm :: pr :: pc :: pcm :: tm :: ma :: ata :: sp :: tp :: extra := by
  rcases accounts with _ | ⟨cm, _ | ⟨pr, _ | ⟨pc, _ | ⟨pcm, _ | ⟨tm, _ | ⟨ma,
    _ | ⟨ata, _ | ⟨sp, _ | ⟨tp, extra⟩⟩⟩⟩⟩⟩⟩⟩⟩
  · simp [add_comment] at h
  · simp [add_comment] at h
  · simp [add_comment] at h
  · simp [add_comment] at h
  · simp [add_comment] at h
  · simp [add_comment] at h
  · simp [add_comment] at h
  · simp [add_comment] at h
  · simp [add_comment] at h
  · exact ⟨cm, pr, pc, pcm, tm, ma, ata, sp, tp, extra, rfl⟩

theorem initialize_token_mint_ok_any {program_id : Nat}
    {accounts : List AccountInfo} {st : St} {u : Unit} {st' : St}
    (h : initialize_token_mint program_id accounts st = (.ok u, st')) :
    ∃ i tm ma sp tp extra, accounts = i :: tm :: ma :: sp :: tp :: extra := by
  rcases accounts with _ | ⟨i, _ | ⟨tm, _ | ⟨ma, _ | ⟨sp, _ | ⟨tp, extra⟩⟩⟩⟩⟩
  · simp [initialize_token_mint] at h
  · simp [initialize_token_mint] at h
  · simp [initialize_token_mint] at h
  · simp [initialize_token_mint] at h
  · simp [initialize_token_mint] at h
  · exact ⟨i, tm, ma, sp, tp, extra, rfl⟩

/-! ### Per-command counter monotonicity -/

theorem add_movie_review_mono {program_id : Nat} {accounts : List AccountInfo}
    {title : Bytes} {rating : Nat} {description : Bytes} {st : St} {u : Unit}
    {st' : St} {a c : Nat}
    (h : add_movie_review program_id accounts title rating description st
      = (.ok u, st'))
    (hc : counterView st.bufs a = some c) :
    counterView st'.bufs a = some c := by
  obtain ⟨i, pa, pc, tm, ma, ata, sp, tp, extra, rfl⟩ := add_movie_review_ok_any h
  obtain ⟨hempA, hempC, hframe, _⟩ := add_movie_review_ok h
  by_cases ha : a = pa.key
  · subst ha
    rw [counterView, hempA, decodeCounter_nil] at hc
    exact absurd hc (by simp)
  · by_cases hb : a = pc.key
    · subst hb
      rw [counterView, hempC, decodeCounter_nil] at hc
      exact absurd hc (by simp)
    · rw [counterView, hframe a ha hb]
      exact hc

theorem update_movie_review_mono {program_id : Nat} {accounts : List AccountInfo}
    {title : Bytes} {rating : Nat} {description : Bytes} {st : St} {u : Unit}
    {st' : St} {a c : Nat}
    (h : update_movie_review program_id accounts title rating description st
      = (.ok u, st'))
    (hc : counterView st.bufs a = some c) :
    counterView st'.bufs a = some c := by
  obtain ⟨i, pa, extra, rfl⟩ := update_movie_review_ok_any h
  obtain ⟨hlog, hframe, hcv⟩ := update_movie_review_ok h
  by_cases ha : a = pa.key
  · subst ha
    exact hcv c hc
  · rw [counterView, hframe a ha]
    exact hc

theorem add_comment_mono {program_id : Nat} {accounts : List AccountInfo}
    {comment : Bytes} {st : St} {u : Unit} {st' : St} {a c : Nat}
    (h : add_comment program_id accounts comment st = (.ok u, st'))
    (hc : counterView st.bufs a = some c) (hov : c + 1 < 256 ^ 8) :
    ∃ c', counterView st'.bufs a = some c' ∧ c ≤ c' ∧ c' ≤ c + 1 := by
  obtain ⟨cm, pr, pc, pcm, tm, ma, ata, sp, tp, extra, rfl⟩ := add_comment_ok_any h
  obtain ⟨cd, hdec, hpda, hempC, hne, hcv, _, hframe, _⟩ := add_comment_ok h
  by_cases ha : a = pcm.key
  · subst ha
    rw [counterView, hempC, decodeCounter_nil] at hc
    exact absurd hc (by simp)
  · by_cases hb : a = pc.key
    · subst hb
      rw [counterView, hdec, Option.map_some'] at hc
      have hcc : cd.counter = c := Option.some.inj hc
      rw [hcc] at hcv
      rw [Nat.mod_eq_of_lt hov] at hcv
      exact ⟨c + 1, hcv, Nat.le_succ c, le_refl (c + 1)⟩
    · rw [counterView, hframe a hb ha]
      exact ⟨c, hc, le_refl c, Nat.le_succ c⟩

theorem initialize_token_mint_mono {program_id : Nat}
    {accounts : List AccountInfo} {st : St} {u : Unit} {st' : St} {a c : Nat}
    (h : initialize_token_mint program_id accounts st = (.ok u, st'))
    (hc : counterView st.bufs a = some c) :
    counterView st'.bufs a = some c := by
  obtain ⟨i, tm, ma, sp, tp, extra, rfl⟩ := initialize_token_mint_ok_any h
  obtain ⟨hemp, hframe⟩ := initialize_token_mint_ok h
  by_cases ha : a = tm.key
  · subst ha
    rw [counterView, hemp, decodeCounter_nil] at hc
    exact absurd hc (by simp)
  · rw [counterView, hframe a ha]
    exact hc


theorem hostRun_nil (bufs : Bufs) : hostRun [] bufs = bufs := rfl

theorem hostRun_cons (inv : Inv) (l : List Inv) (bufs : Bufs) :
    hostRun (inv :: l) bufs
      = hostRun l (hostApply inv.program_id inv.accounts inv.instruction_data bufs) :=
  rfl

/-- One host-applied invocation moves any decodable counter up by zero or
one, never down (below the u64 bound). -/
theorem hostApply_counter_mono (program_id : Nat) (accounts : List AccountInfo)
    (dat : Bytes) (bufs : Bufs) (a c : Nat)
    (hc : counterView bufs a = some c) (hov : c + 1 < 256 ^ 8) :
    ∃ c', counterView (hostApply program_id accounts dat bufs) a = some c'
      ∧ c ≤ c' ∧ c' ≤ c + 1 := by
  unfold hostApply
  cases hrun : process_instruction program_id accounts dat ⟨bufs, []⟩ with
  | mk r st' =>
    cases r with
    | error e => exact ⟨c, hc, le_refl c, Nat.le_succ c⟩
    | ok u =>
      simp only [process_instruction] at hrun
      split at hrun
      · exact absurd hrun (by simp)
      next title rating description =>
        exact ⟨c, add_movie_review_mono hrun hc, le_refl c, Nat.le_succ c⟩
      next title rating description =>
        exact ⟨c, update_movie_review_mono hrun hc, le_refl c, Nat.le_succ c⟩
      next comment =>
        exact add_comment_mono hrun hc hov
      next =>
        exact ⟨c, initialize_token_mint_mono hrun hc, le_refl c, Nat.le_succ c⟩

/-- Across any host-applied sequence the counter never decreases, and it
rises by at most one per invocation. -/
theorem hostRun_counter_mono (l : List Inv) (bufs : Bufs) (a c : Nat)
    (hc : counterView bufs a = some c) (hov : c + l.length < 256 ^ 8) :
    ∃ c', counterView (hostRun l bufs) a = some c'
      ∧ c ≤ c' ∧ c' ≤ c + l.length := by
  induction l generalizing bufs c with
  | nil => exact ⟨c, hc, le_refl c, by simp⟩
  | cons inv l ih =>
    have hov1 : c + 1 < 256 ^ 8 := by
      simp only [List.length_cons] at hov
      omega
    obtain ⟨c1, hc1, hle1, hle2⟩ := hostApply_counter_mono inv.program_id
      inv.accounts inv.instruction_data bufs a c hc hov1
    have hov2 : c1 + l.length < 256 ^ 8 := by
      simp only [List.length_cons] at hov
      omega
    obtain ⟨c', hc', hle3, hle4⟩ := ih _ _ hc1 hov2
    rw [hostRun_cons]
    refine ⟨c', hc', by omega, ?_⟩
    simp only [List.length_cons]
    omega


/-- C2: a successful AddComment leaves the counter at exactly one more
than the decoded pre-state count (exactly, absent u64 overflow), derives
the created comment's address from the big-endian bytes of the
pre-increment count, and creates an initialized comment record carrying
the request's comment; and across any single host-applied invocation or
any sequence of them, a stored count never decreases and rises by at most
one per successfully created comment. -/
theorem claim_C2 :
    (∀ (program_id : Nat) (cm pr pc pcm tm ma ata sp tp : AccountInfo)
       (extra : List AccountInfo) (comment : Bytes) (st st' : St),
      add_comment program_id
          (cm :: pr :: pc :: pcm :: tm :: ma :: ata :: sp :: tp :: extra)
          comment st = (.ok (), st') →
      ∃ cd, decodeCounter (getBuf st.bufs pc.key) = some cd ∧
        counterView st.bufs pc.key = some cd.counter ∧
        counterView st'.bufs pc.key = some ((cd.counter + 1) % 256 ^ 8) ∧
        (cd.counter + 1 < 256 ^ 8 →
          counterView st'.bufs pc.key = some (cd.counter + 1)) ∧
        pcm.key = (find_program_address [pk32 pr.key, toBE8 cd.counter] program_id).1 ∧
        (comment.length < 256 ^ 4 →
          ∃ cmr, decodeComment (getBuf st'.bufs pcm.key) = some cmr ∧
            cmr.is_initialized = true ∧ cmr.comment = comment))
  ∧ (∀ (program_id : Nat) (accounts : List AccountInfo) (dat : Bytes)
       (bufs : Bufs) (a c : Nat),
      counterView bufs a = some c → c + 1 < 256 ^ 8 →
      ∃ c', counterView (hostApply program_id accounts dat bufs) a = some c'
        ∧ c ≤ c' ∧ c' ≤ c + 1)
  ∧ (∀ (l : List Inv) (bufs : Bufs) (a c : Nat),
      counterView bufs a = some c → c + l.length < 256 ^ 8 →
      ∃ c', counterView (hostRun l bufs) a = some c'
        ∧ c ≤ c' ∧ c' ≤ c + l.length) := by
  refine ⟨?_, hostApply_counter_mono, hostRun_counter_mono⟩
  intro program_id cm pr pc pcm tm ma ata sp tp extra comment st st' h
  obtain ⟨cd, hdec, hpda, hempC, hne, hcv, hcmr, hframe, _⟩ := add_comment_ok h
  refine ⟨cd, hdec, ?_, hcv, ?_, hpda.symm, ?_⟩
  · rw [counterView, hdec, Option.map_some']
  · intro hov
    rw [hcv, Nat.mod_eq_of_lt hov]
  · intro hcml
    obtain ⟨cmr, hc1, _, hc3, _, _, hc6⟩ := hcmr hcml
    exact ⟨cmr, hc1, hc3, hc6⟩

/-! ### A concrete comment scenario -/

/-- A commenter who has not signed. -/
def exCmSigner : AccountInfo := ⟨21, false, 0⟩

/-- The review account referenced by the comment. -/
def exRevAcct2 : AccountInfo := ⟨11, false, 0⟩

/-- A counter account at an arbitrary address with an arbitrary owner --
deliberately not derive(review, "comment") and not program-owned. -/
def exCtrAcct : AccountInfo := ⟨13, false, 99⟩

/-- The comment address derived from (review 11, big-endian count 0). -/
def exCommentKey : Nat := (find_program_address [pk32 11, toBE8 0] exPid).1

/-- The comment account at its derived address. -/
def exCommentAcct : AccountInfo := ⟨exCommentKey, false, 0⟩

/-- The commenter's associated token account. -/
def exCmAta : AccountInfo := ⟨get_associated_token_address 21 exMintKey, false, 0⟩

/-- The buffer map holding an initialized counter with count 0 at key 13. -/
def exCmBufs : Bufs := [(13, encodeCounter ⟨counterDisc, true, 0⟩)]

/-- The account list for the sample AddComment. -/
def exCmAccounts : List AccountInfo :=
  [exCmSigner, exRevAcct2, exCtrAcct, exCommentAcct, exMintAcct, exAuthAcct,
   exCmAta, exSystemAcct, exTokenAcct]

/-- The sample comment, `"Hi"`. -/
def exCmComment : Bytes := [byte 72, byte 105]

/-- A concrete successful AddComment run. -/
def exCmRun : Except PErr Unit × St :=
  add_comment exPid exCmAccounts exCmComment ⟨exCmBufs, []⟩

set_option maxRecDepth 100000 in
theorem claim_C2_witness :
    (∃ cd, decodeCounter (getBuf exCmBufs 13) = some cd ∧
      counterView exCmBufs 13 = some cd.counter ∧
      counterView exCmRun.2.bufs 13 = some ((cd.counter + 1) % 256 ^ 8) ∧
      (cd.counter + 1 < 256 ^ 8 →
        counterView exCmRun.2.bufs 13 = some (cd.counter + 1)) ∧
      exCommentKey = (find_program_address [pk32 11, toBE8 cd.counter] exPid).1 ∧
      (exCmComment.length < 256 ^ 4 →
        ∃ cmr, decodeComment (getBuf exCmRun.2.bufs exCommentKey) = some cmr ∧
          cmr.is_initialized = true ∧ cmr.comment = exCmComment))
  ∧ (∃ c', counterView (hostApply exPid [] [] exCmBufs) 13 = some c'
      ∧ 0 ≤ c' ∧ c' ≤ 0 + 1)
  ∧ (∃ c', counterView (hostRun [] exCmBufs) 13 = some c'
      ∧ 0 ≤ c' ∧ c' ≤ 0 + ([] : List Inv).length) :=
  ⟨claim_C2.1 exPid exCmSigner exRevAcct2 exCtrAcct exCommentAcct exMintAcct
      exAuthAcct exCmAta exSystemAcct exTokenAcct [] exCmComment ⟨exCmBufs, []⟩
      exCmRun.2 (by rfl),
   claim_C2.2.1 exPid [] [] exCmBufs 13 0 (by rfl) (by decide),
   claim_C2.2.2 [] exCmBufs 13 0 (by rfl) (by decide)⟩


/-- C7 (amended): in the reward-minting step shared by AddReview and
AddComment, a wrong mint address, destination associated-token account, or
token-program identity fails with `IncorrectAccount`, while a wrong
mint-authority address fails with `InvalidDerivedAddress` (InvalidPDA);
all four checks precede the external mint call, which is issued only when
all four match; and any successful AddReview or AddComment implies all
four accounts matched their re-derived/expected values. -/
theorem claim_C7 :
    (∀ (program_id : Nat) (user tm ma ata tp : AccountInfo) (amount : Nat)
       (st : St),
      ((find_program_address [seedTokenMint] program_id).1 ≠ tm.key →
        mint_reward program_id user tm ma ata tp amount st
          = (.error ReviewError.IncorrectAccount, st))
      ∧ ((find_program_address [seedTokenMint] program_id).1 = tm.key →
         (find_program_address [seedTokenAuth] program_id).1 ≠ ma.key →
        mint_reward program_id user tm ma ata tp amount st
          = (.error ReviewError.InvalidPDA, st))
      ∧ ((find_program_address [seedTokenMint] program_id).1 = tm.key →
         (find_program_address [seedTokenAuth] program_id).1 = ma.key →
         get_associated_token_address user.key tm.key ≠ ata.key →
        mint_reward program_id user tm ma ata tp amount st
          = (.error ReviewError.IncorrectAccount, st))
      ∧ ((find_program_address [seedTokenMint] program_id).1 = tm.key →
         (find_program_address [seedTokenAuth] program_id).1 = ma.key →
         get_associated_token_address user.key tm.key = ata.key →
         TOKEN_PROGRAM_ID ≠ tp.key →
        mint_reward program_id user tm ma ata tp amount st
          = (.error ReviewError.IncorrectAccount, st))
      ∧ ((find_program_address [seedTokenMint] program_id).1 = tm.key →
         (find_program_address [seedTokenAuth] program_id).1 = ma.key →
         get_associated_token_address user.key tm.key = ata.key →
         TOKEN_PROGRAM_ID = tp.key →
        mint_reward program_id user tm ma ata tp amount st
          = (.ok (), ⟨st.bufs, st.log ++ [.mintTo tp.key tm.key ata.key ma.key
              (sol_to_lamports amount)]⟩)))
  ∧ (∀ (program_id : Nat) (i pa pc tm ma ata sp tp : AccountInfo)
       (extra : List AccountInfo) (title : Bytes) (rating : Nat)
       (description : Bytes) (st st' : St),
      add_movie_review program_id
          (i :: pa :: pc :: tm :: ma :: ata :: sp :: tp :: extra)
          title rating description st = (.ok (), st') →
      (find_program_address [seedTokenMint] program_id).1 = tm.key ∧
      (find_program_address [seedTokenAuth] program_id).1 = ma.key ∧
      get_associated_token_address i.key tm.key = ata.key ∧
      TOKEN_PROGRAM_ID = tp.key)
  ∧ (∀ (program_id : Nat) (cm pr pc pcm tm ma ata sp tp : AccountInfo)
       (extra : List AccountInfo) (comment : Bytes) (st st' : St),
      add_comment program_id
          (cm :: pr :: pc :: pcm :: tm :: ma :: ata :: sp :: tp :: extra)
          comment st = (.ok (), st') →
      (find_program_address [seedTokenMint] program_id).1 = tm.key ∧
      (find_program_address [seedTokenAuth] program_id).1 = ma.key ∧
      get_associated_token_address cm.key tm.key = ata.key ∧
      TOKEN_PROGRAM_ID = tp.key) := by
  refine ⟨?_, ?_, ?_⟩
  · intro program_id user tm ma ata tp amount st
    refine ⟨?_, ?_, ?_, ?_, ?_⟩
    · intro h1
      simp only [mint_reward]
      rw [if_pos h1]
    · intro h1 h2
      simp only [mint_reward]
      rw [if_neg (fun h => h h1), if_pos h2]
    · intro h1 h2 h3
      simp only [mint_reward]
      rw [if_neg (fun h => h h1), if_neg (fun h => h h2), if_pos h3]
    · intro h1 h2 h3 h4
      simp only [mint_reward]
      rw [if_neg (fun h => h h1), if_neg (fun h => h h2), if_neg (fun h => h h3),
        if_pos h4]
    · intro h1 h2 h3 h4
      simp only [mint_reward]
      rw [if_neg (fun h => h h1), if_neg (fun h => h h2), if_neg (fun h => h h3),
        if_neg (fun h => h h4)]
  · intro program_id i pa pc tm ma ata sp tp extra title rating description st st' h
    obtain ⟨_, _, _, hmint, hauth, hata, htp⟩ := add_movie_review_ok h
    exact ⟨hmint, hauth, hata, htp⟩
  · intro program_id cm pr pc pcm tm ma ata sp tp extra comment st st' h
    obtain ⟨cd, _, _, _, _, _, _, _, hmint, hauth, hata, htp⟩ := add_comment_ok h
    exact ⟨hmint, hauth, hata, htp⟩

set_option maxRecDepth 100000 in
/-- C7 counterexample: with a correct mint but a wrong mint-authority
account, the reward step of an AddReview that passes every earlier check
fails with `InvalidDerivedAddress` (InvalidPDA, custom error 1), not
`IncorrectAccount` (custom error 4) as the claim states. -/
theorem claim_C7_counterexample :
    mint_reward exPid exSigner exMintAcct exBadAuthAcct exAtaAcct exTokenAcct 10
        ⟨[], []⟩
      = (.error ReviewError.InvalidPDA, ⟨[], []⟩)
  ∧ ReviewError.InvalidPDA ≠ ReviewError.IncorrectAccount
  ∧ (add_movie_review exPid [exSigner, exReviewAcct, exCounterAcct, exMintAcct,
        exBadAuthAcct, exAtaAcct, exSystemAcct, exTokenAcct] exTitle 4 exBody
        ⟨[], []⟩).1 = .error ReviewError.InvalidPDA :=
  ⟨rfl, by decide, by rfl⟩

theorem claim_C7_witness :
    mint_reward exPid exSigner exBadMintAcct exAuthAcct exAtaAcct exTokenAcct 10
        ⟨[], []⟩
      = (.error ReviewError.IncorrectAccount, ⟨[], []⟩)
  ∧ mint_reward exPid exSigner exMintAcct exAuthAcct exAtaAcct exTokenAcct 10
        ⟨[], []⟩
      = (.ok (), ⟨[], [.mintTo TOKEN_PROGRAM_ID exMintKey
          (get_associated_token_address 3 exMintKey) exAuthKey
          (sol_to_lamports 10)]⟩) :=
  ⟨(claim_C7.1 exPid exSigner exBadMintAcct exAuthAcct exAtaAcct exTokenAcct 10
      ⟨[], []⟩).1 (by decide),
   (claim_C7.1 exPid exSigner exMintAcct exAuthAcct exAtaAcct exTokenAcct 10
      ⟨[], []⟩).2.2.2.2 rfl rfl rfl rfl⟩


set_option maxRecDepth 100000 in
/-- C10: AddComment never validates the supplied counter buffer. The
outcome is identical for any commenter signer flag (no signature demanded)
and for any counter-account owner (no ownership check); whenever the
counter buffer decodes, its count value is what the comment address is
derived from, with an address mismatch rejected only against that derived
value; and a fully successful run exists in which the commenter has not
signed, the counter sits at an address different from
derive(reviewAddress, "comment"), and its owner is not the program. -/
theorem claim_C10 :
    (∀ (program_id k : Nat) (b b' : Bool) (o : Nat) (rest : List AccountInfo)
       (comment : Bytes) (st : St),
      add_comment program_id (⟨k, b, o⟩ :: rest) comment st
        = add_comment program_id (⟨k, b', o⟩ :: rest) comment st)
  ∧ (∀ (program_id : Nat) (cm pr : AccountInfo) (k : Nat) (s : Bool) (o o' : Nat)
       (rest : List AccountInfo) (comment : Bytes) (st : St),
      add_comment program_id (cm :: pr :: ⟨k, s, o⟩ :: rest) comment st
        = add_comment program_id (cm :: pr :: ⟨k, s, o'⟩ :: rest) comment st)
  ∧ (∀ (program_id : Nat) (cm pr pc pcm tm ma ata sp tp : AccountInfo)
       (extra : List AccountInfo) (comment : Bytes) (st : St),
      ∀ cd, decodeCounter (getBuf st.bufs pc.key) = some cd →
        (find_program_address [pk32 pr.key, toBE8 cd.counter] program_id).1
          ≠ pcm.key →
        add_comment program_id
          (cm :: pr :: pc :: pcm :: tm :: ma :: ata :: sp :: tp :: extra)
          comment st = (.error ReviewError.InvalidPDA, st))
  ∧ (exCmRun.1 = .ok ()
      ∧ exCmSigner.is_signer = false
      ∧ exCtrAcct.key ≠ (find_program_address [pk32 exRevAcct2.key, seedComment] exPid).1
      ∧ exCtrAcct.owner ≠ exPid) := by
  refine ⟨?_, ?_, ?_, by rfl, rfl, by decide, by decide⟩
  · intro program_id k b b' o rest comment st
    rcases rest with _ | ⟨pr, _ | ⟨pc, _ | ⟨pcm, _ | ⟨tm, _ | ⟨ma, _ | ⟨ata,
      _ | ⟨sp, _ | ⟨tp, extra⟩⟩⟩⟩⟩⟩⟩⟩ <;> rfl
  · intro program_id cm pr k s o o' rest comment st
    rcases rest with _ | ⟨pcm, _ | ⟨tm, _ | ⟨ma, _ | ⟨ata, _ | ⟨sp,
      _ | ⟨tp, extra⟩⟩⟩⟩⟩⟩ <;> rfl
  · intro program_id cm pr pc pcm tm ma ata sp tp extra comment st
    exact (add_comment_early_checks program_id cm pr pc pcm tm ma ata sp tp
      extra comment st).2

set_option maxRecDepth 100000 in
theorem claim_C10_witness :
    add_comment exPid [exCmSigner, exRevAcct2, exCtrAcct, ⟨5, false, 0⟩,
        exMintAcct, exAuthAcct, exCmAta, exSystemAcct, exTokenAcct]
      exCmComment ⟨exCmBufs, []⟩
      = (.error ReviewError.InvalidPDA, ⟨exCmBufs, []⟩)
  ∧ add_comment exPid (⟨21, false, 0⟩ :: [exRevAcct2, exCtrAcct, exCommentAcct,
        exMintAcct, exAuthAcct, exCmAta, exSystemAcct, exTokenAcct])
      exCmComment ⟨exCmBufs, []⟩
    = add_comment exPid (⟨21, true, 0⟩ :: [exRevAcct2, exCtrAcct, exCommentAcct,
        exMintAcct, exAuthAcct, exCmAta, exSystemAcct, exTokenAcct])
      exCmComment ⟨exCmBufs, []⟩ :=
  ⟨(claim_C10.2.2.1 exPid exCmSigner exRevAcct2 exCtrAcct ⟨5, false, 0⟩
      exMintAcct exAuthAcct exCmAta exSystemAcct exTokenAcct [] exCmComment
      ⟨exCmBufs, []⟩ ⟨counterDisc, true, 0⟩ (by rfl) (by decide)),
   claim_C10.1 exPid 21 false true 0 [exRevAcct2, exCtrAcct, exCommentAcct,
      exMintAcct, exAuthAcct, exCmAta, exSystemAcct, exTokenAcct]
      exCmComment ⟨exCmBufs, []⟩⟩

end MovieReview
